import Mathlib

/-!
Verification of the HIR lowering pass (`src/librustc/hir/lowering.rs`).

The development contains three shallow embeddings, one per component the
claims touch:

* `IdAlloc` — the identity allocator: `lower_node_id_generic`,
  `lower_node_id`, `lower_node_id_with_owner`, `allocate_hir_id_counter`
  and `with_hir_id_owner`, together with a small operation language and a
  reachability-style no-aliasing invariant.
* `Desugar` — the scope context (`with_catch_scope`, `with_loop_scope`,
  `with_loop_condition_scope`, `with_new_scopes`) and the desugaring of
  `?` (`ExprKind::Try`), `catch`, `while`/`loop`, `break`/`continue` and
  range literals over a reduced surface AST containing exactly those
  constructs.
* `InBand` — in-band (implicit) region collection: `lower_lifetime`,
  `lower_lifetime_def`, `collect_in_band_lifetime_defs`,
  `with_in_scope_lifetime_defs` and `add_in_band_lifetime_defs`.

Machine integers: the source uses `u32` node ids and counters.  The
counters are modelled as `Nat`; the lowering pass aborts (overflow panic /
failed `debug_assert`) before any counter wraps, so the model describes
the non-wrapping executions the spec talks about.  The reserved constants
keep their concrete `u32` values (`!0 = 4294967295`).
-/

set_option maxHeartbeats 1000000

namespace Lowering

namespace IdAlloc

/-- `hir::HirId`: a pair of a `DefIndex` (the owner) and an
`ItemLocalId`, both `u32` in the source. -/
structure HirId where
  owner : Nat
  local_id : Nat
deriving DecidableEq, Repr

/-- `ast::DUMMY_NODE_ID = NodeId(!0)`: the reserved sentinel source node
id. -/
def DUMMY_NODE_ID : Nat := 4294967295

/-- `hir::DUMMY_HIR_ID = HirId { owner: CRATE_DEF_INDEX, local_id: ItemLocalId(!0) }`:
the reserved sentinel canonical id, also used as the "empty slot" marker
of the `node_id_to_hir_id` table. -/
def DUMMY_HIR_ID : HirId := ⟨0, 4294967295⟩

/-- `const HIR_ID_COUNTER_LOCKED: u32 = 0xFFFFFFFF` — the in-use sentinel
stored in `item_local_id_counters` while an owner's subtree is lowered. -/
def HIR_ID_COUNTER_LOCKED : Nat := 4294967295

/-- `CRATE_DEF_INDEX`: the def index of the crate root (index 0). -/
def CRATE_DEF_INDEX : Nat := 0

/-- The result type of `lower_node_id_generic` (`struct LoweredNodeId`). -/
structure LoweredNodeId where
  node_id : Nat
  hir_id : HirId
deriving DecidableEq, Repr

/-- The identity-allocator fragment of `LoweringContext`:
`node_id_to_hir_id: IndexVec<NodeId, hir::HirId>`,
`item_local_id_counters: NodeMap<u32>` (modelled as a partial function),
`current_hir_id_owner: Vec<(DefIndex, u32)>` (head of the list is the top
of the `Vec`). -/
structure LowerState where
  node_id_to_hir_id : List HirId
  item_local_id_counters : Nat → Option Nat
  current_hir_id_owner : List (Nat × Nat)

/-- Map update for `item_local_id_counters` (`insert` overwrites). -/
def mapInsert (m : Nat → Option Nat) (k v : Nat) : Nat → Option Nat :=
  fun x => if x = k then some v else m x

/-- The state the `LoweringContext` literal in `lower_crate` builds:
empty table, empty counter map, owner stack `vec![(CRATE_DEF_INDEX, 0)]`. -/
def initState : LowerState :=
  { node_id_to_hir_id := []
    item_local_id_counters := fun _ => none
    current_hir_id_owner := [(CRATE_DEF_INDEX, 0)] }

/-- `IndexVec::resize(min_size, DUMMY_HIR_ID)` guarded by
`min_size > len`, i.e. grow-only, filling new slots with the sentinel. -/
def resizeTable (tbl : List HirId) (min_size : Nat) : List HirId :=
  if min_size > tbl.length then tbl ++ List.replicate (min_size - tbl.length) DUMMY_HIR_ID
  else tbl

/-- `lower_node_id_generic`: sentinel input short-circuits to the sentinel
output without touching the state; otherwise grow the table, return the
cached slot if it is non-empty, and otherwise run `alloc_hir_id` and store
its result.  Failure (`none`) stands for the `unwrap`/`debug_assert`
panics inside the particular `alloc_hir_id` closure. -/
def lower_node_id_generic (s : LowerState) (ast_node_id : Nat)
    (alloc_hir_id : LowerState → Option (HirId × LowerState)) :
    Option (LoweredNodeId × LowerState) :=
  if ast_node_id = DUMMY_NODE_ID then
    some (⟨DUMMY_NODE_ID, DUMMY_HIR_ID⟩, s)
  else
    let min_size := ast_node_id + 1
    let tbl := resizeTable s.node_id_to_hir_id min_size
    let s := { s with node_id_to_hir_id := tbl }
    let existing_hir_id := tbl.getD ast_node_id DUMMY_HIR_ID
    if existing_hir_id = DUMMY_HIR_ID then
      match alloc_hir_id s with
      | none => none
      | some (hir_id, s') =>
        some (⟨ast_node_id, hir_id⟩,
          { s' with node_id_to_hir_id := s'.node_id_to_hir_id.set ast_node_id hir_id })
    else
      some (⟨ast_node_id, existing_hir_id⟩, s)

/-- `lower_node_id`: allocate from the counter of the innermost entry of
`current_hir_id_owner` (`last_mut().unwrap()`), post-incrementing it. -/
def lower_node_id (s : LowerState) (ast_node_id : Nat) :
    Option (LoweredNodeId × LowerState) :=
  lower_node_id_generic s ast_node_id (fun t =>
    match t.current_hir_id_owner with
    | [] => none
    | (def_index, local_id_counter) :: rest =>
      some (⟨def_index, local_id_counter⟩,
        { t with current_hir_id_owner := (def_index, local_id_counter + 1) :: rest }))

/-- `lower_node_id_with_owner`: allocate from `item_local_id_counters[owner]`
directly (`get_mut(&owner).unwrap()`), with the
`debug_assert!(local_id != HIR_ID_COUNTER_LOCKED)` guard; the def index
comes from the resolver's `opt_def_index(owner).unwrap()`, modelled by the
external function `d`. -/
def lower_node_id_with_owner (d : Nat → Option Nat) (s : LowerState)
    (ast_node_id owner : Nat) : Option (LoweredNodeId × LowerState) :=
  lower_node_id_generic s ast_node_id (fun t =>
    match t.item_local_id_counters owner with
    | none => none
    | some local_id =>
      if local_id = HIR_ID_COUNTER_LOCKED then none
      else
        match d owner with
        | none => none
        | some def_index =>
          some (⟨def_index, local_id⟩,
            { t with item_local_id_counters :=
                mapInsert t.item_local_id_counters owner (local_id + 1) }))

/-- `allocate_hir_id_counter`: register a new owner at counter 0 (`bug!`
if already registered) and immediately materialize the owner's own id at
local id 0 via `lower_node_id_with_owner(owner, owner)`. -/
def allocate_hir_id_counter (d : Nat → Option Nat) (s : LowerState)
    (owner : Nat) : Option LowerState :=
  match s.item_local_id_counters owner with
  | some _ => none
  | none =>
    let s₁ := { s with item_local_id_counters := mapInsert s.item_local_id_counters owner 0 }
    (lower_node_id_with_owner d s₁ owner owner).map (·.2)

/-- `with_hir_id_owner`: swap the owner's stored counter for the locked
sentinel, push `(def_index, counter)`, run the body, pop, check the
debug assertions (`def_index` matches, counter did not decrease, the map
still holds the locked sentinel) and write the new counter back. -/
def with_hir_id_owner (d : Nat → Option Nat) (s : LowerState) (owner : Nat)
    (f : LowerState → Option LowerState) : Option LowerState :=
  match s.item_local_id_counters owner with
  | none => none
  | some counter =>
    match d owner with
    | none => none
    | some def_index =>
      let s₁ : LowerState :=
        { s with
          item_local_id_counters := mapInsert s.item_local_id_counters owner HIR_ID_COUNTER_LOCKED
          current_hir_id_owner := (def_index, counter) :: s.current_hir_id_owner }
      match f s₁ with
      | none => none
      | some s₂ =>
        match s₂.current_hir_id_owner with
        | [] => none
        | (new_def_index, new_counter) :: rest =>
          if new_def_index = def_index ∧ counter ≤ new_counter ∧
              s₂.item_local_id_counters owner = some HIR_ID_COUNTER_LOCKED then
            some { s₂ with
              current_hir_id_owner := rest
              item_local_id_counters := mapInsert s₂.item_local_id_counters owner new_counter }
          else none

/-- The calls one lowering pass makes into the identity allocator, as a
little operation language: plain `lower_node_id` calls (this also covers
`next_id`, which is `lower_node_id` on a fresh session id),
`lower_node_id_with_owner`, `allocate_hir_id_counter`, and
`with_hir_id_owner` with the nested sub-pass it runs. -/
inductive Op where
  | lowerNode (id : Nat)
  | lowerNodeWithOwner (id : Nat) (owner : Nat)
  | allocCounter (owner : Nat)
  | withOwner (owner : Nat) (body : List Op)
deriving Repr

/-- Run a list of allocator operations.  The `withOwner` case inlines
`with_hir_id_owner` (so that the recursion into the nested body is
structural); `runOps_withOwner` below restates it through the function
itself. -/
def runOps (d : Nat → Option Nat) : List Op → LowerState → Option LowerState
  | [], s => some s
  | .lowerNode i :: rest, s =>
    match lower_node_id s i with
    | none => none
    | some (_, s₁) => runOps d rest s₁
  | .lowerNodeWithOwner i o :: rest, s =>
    match lower_node_id_with_owner d s i o with
    | none => none
    | some (_, s₁) => runOps d rest s₁
  | .allocCounter o :: rest, s =>
    match allocate_hir_id_counter d s o with
    | none => none
    | some s₁ => runOps d rest s₁
  | .withOwner o body :: rest, s =>
    match s.item_local_id_counters o with
    | none => none
    | some counter =>
      match d o with
      | none => none
      | some def_index =>
        match runOps d body { s with
            item_local_id_counters := mapInsert s.item_local_id_counters o HIR_ID_COUNTER_LOCKED
            current_hir_id_owner := (def_index, counter) :: s.current_hir_id_owner } with
        | none => none
        | some s₂ =>
          match s₂.current_hir_id_owner with
          | [] => none
          | (new_def_index, new_counter) :: rest' =>
            if new_def_index = def_index ∧ counter ≤ new_counter ∧
                s₂.item_local_id_counters o = some HIR_ID_COUNTER_LOCKED then
              runOps d rest { s₂ with
                current_hir_id_owner := rest'
                item_local_id_counters := mapInsert s₂.item_local_id_counters o new_counter }
            else none

/-- The inlined `withOwner` case of `runOps` is exactly
`with_hir_id_owner` applied to the nested run. -/
theorem runOps_withOwner (d : Nat → Option Nat) (o : Nat) (body rest : List Op)
    (s : LowerState) :
    runOps d (.withOwner o body :: rest) s =
      (with_hir_id_owner d s o (runOps d body)).bind (runOps d rest) := by
  simp only [runOps, with_hir_id_owner]
  cases s.item_local_id_counters o with
  | none => rfl
  | some counter =>
    cases d o with
    | none => rfl
    | some δ =>
      simp only
      cases runOps d body { s with
          item_local_id_counters :=
            mapInsert s.item_local_id_counters o HIR_ID_COUNTER_LOCKED
          current_hir_id_owner := (δ, counter) :: s.current_hir_id_owner } with
      | none => rfl
      | some s₂ =>
        simp only [Option.some_bind]
        cases s₂.current_hir_id_owner with
        | nil => rfl
        | cons e t =>
          obtain ⟨ndi, nc⟩ := e
          simp only
          split <;> rfl

/-- An upper bound on how many local ids a list of operations can
allocate. -/
def allocCount : List Op → Nat
  | [] => 0
  | .withOwner _ body :: rest => allocCount body + allocCount rest
  | _ :: rest => 1 + allocCount rest

/-- `with_hir_id_owner` is never re-entered for an owner whose subtree is
already being lowered (the driver walks each item once; re-entering would
trip the `debug_assert!(prev == HIR_ID_COUNTER_LOCKED)`). -/
def NoReent : List Op → List Nat → Bool
  | [], _ => true
  | .withOwner o body :: rest, forb =>
    !(forb.contains o) && NoReent body (o :: forb) && NoReent rest forb
  | _ :: rest, forb => NoReent rest forb

/-- Propositional form of `NoReent` relative to a set of currently locked
owners. -/
def OpsOK : List Op → (Nat → Prop) → Prop
  | [], _ => True
  | .withOwner o body :: rest, L => ¬ L o ∧ OpsOK body (fun x => L x ∨ x = o) ∧ OpsOK rest L
  | _ :: rest, L => OpsOK rest L

/-- Pairwise distinctness of the non-sentinel entries of the
`node_id_to_hir_id` table: no two distinct mapped source ids share a
canonical id. -/
def TblInj (tbl : List HirId) : Prop :=
  ∀ i j (hi : i < tbl.length) (hj : j < tbl.length),
    i ≠ j → tbl[i] ≠ DUMMY_HIR_ID → tbl[j] ≠ DUMMY_HIR_ID → tbl[i] ≠ tbl[j]

/-- The allocator invariant.  `d` is the resolver's `opt_def_index`.
The components: the def indices on the owner stack are pairwise distinct;
a locked owner's def index is on the stack; a non-crate def index on the
stack belongs to a locked owner; every mapped id lies strictly below every
live counter of its owner (stack entries and unlocked map entries); every
mapped id's owner has a live stack entry or an unlocked map counter; and
the table is injective on non-sentinel entries. -/
structure Inv (d : Nat → Option Nat) (s : LowerState) : Prop where
  nodupOwners : (s.current_hir_id_owner.map Prod.fst).Nodup
  lockedOnStack : ∀ o, s.item_local_id_counters o = some HIR_ID_COUNTER_LOCKED →
    ∃ δ, d o = some δ ∧ δ ∈ s.current_hir_id_owner.map Prod.fst
  stackLocked : ∀ e ∈ s.current_hir_id_owner, e.1 ≠ 0 →
    ∃ o, d o = some e.1 ∧ s.item_local_id_counters o = some HIR_ID_COUNTER_LOCKED
  tblBelowStack : ∀ h ∈ s.node_id_to_hir_id, h ≠ DUMMY_HIR_ID →
    ∀ e ∈ s.current_hir_id_owner, e.1 = h.owner → h.local_id < e.2
  tblBelowMap : ∀ h ∈ s.node_id_to_hir_id, h ≠ DUMMY_HIR_ID →
    ∀ o c, d o = some h.owner → s.item_local_id_counters o = some c →
      c ≠ HIR_ID_COUNTER_LOCKED → h.local_id < c
  tblOwned : ∀ h ∈ s.node_id_to_hir_id, h ≠ DUMMY_HIR_ID →
    (∃ e ∈ s.current_hir_id_owner, e.1 = h.owner) ∨
    (∃ o c, d o = some h.owner ∧ s.item_local_id_counters o = some c ∧
      c ≠ HIR_ID_COUNTER_LOCKED)
  inj : TblInj s.node_id_to_hir_id

/-- All live counters are bounded by `B` (locked map entries exempt). -/
structure CtrBound (s : LowerState) (B : Nat) : Prop where
  stack : ∀ e ∈ s.current_hir_id_owner, e.2 ≤ B
  map : ∀ o c, s.item_local_id_counters o = some c → c ≠ HIR_ID_COUNTER_LOCKED → c ≤ B

/-- How the owner stack can change across a balanced stretch of the pass:
same shape, with only the innermost counter advanced. -/
def stackEvol : List (Nat × Nat) → List (Nat × Nat) → Prop
  | [], b => b = []
  | (δ, c) :: t, b => ∃ c', c ≤ c' ∧ b = (δ, c') :: t

/-- The resolver assigns def indices injectively. -/
def Injd (d : Nat → Option Nat) : Prop :=
  ∀ o₁ o₂ δ, d o₁ = some δ → d o₂ = some δ → o₁ = o₂

/-- Owners that receive a counter are items, never the crate root, so
their def index is never `CRATE_DEF_INDEX = 0`. -/
def Posd (d : Nat → Option Nat) : Prop :=
  ∀ o δ, d o = some δ → δ ≠ 0

theorem mem_resizeTable {tbl : List HirId} {n : Nat} {h : HirId}
    (hm : h ∈ resizeTable tbl n) : h ∈ tbl ∨ h = DUMMY_HIR_ID := by
  unfold resizeTable at hm
  split at hm
  · rcases List.mem_append.1 hm with h1 | h1
    · exact Or.inl h1
    · exact Or.inr (List.eq_of_mem_replicate h1)
  · exact Or.inl hm

theorem length_resizeTable (tbl : List HirId) (n : Nat) :
    (resizeTable tbl n).length = max tbl.length n := by
  unfold resizeTable; split <;> simp <;> omega

theorem getElem_resizeTable_lt {tbl : List HirId} {n i : Nat} (hi : i < tbl.length)
    (hi' : i < (resizeTable tbl n).length) :
    (resizeTable tbl n)[i] = tbl[i] := by
  unfold resizeTable
  split
  · exact List.getElem_append_left hi
  · rfl

theorem getElem_resizeTable_ge {tbl : List HirId} {n i : Nat} (hi : tbl.length ≤ i)
    (hi' : i < (resizeTable tbl n).length) :
    (resizeTable tbl n)[i] = DUMMY_HIR_ID := by
  have hlen := length_resizeTable tbl n
  unfold resizeTable
  unfold resizeTable at hi'
  split
  · rw [List.getElem_append_right hi]
    exact List.getElem_replicate ..
  · exfalso; split at hi' <;> omega

theorem TblInj.resize {tbl : List HirId} (hinj : TblInj tbl) (n : Nat) :
    TblInj (resizeTable tbl n) := by
  intro i j hi hj hij hvi hvj
  rcases lt_or_ge i tbl.length with hi' | hi'
  · rcases lt_or_ge j tbl.length with hj' | hj'
    · rw [getElem_resizeTable_lt hi' hi, getElem_resizeTable_lt hj' hj]
      rw [getElem_resizeTable_lt hi' hi] at hvi
      rw [getElem_resizeTable_lt hj' hj] at hvj
      exact hinj i j hi' hj' hij hvi hvj
    · exact absurd (getElem_resizeTable_ge hj' hj) hvj
  · exact absurd (getElem_resizeTable_ge hi' hi) hvi

theorem TblInj.store {tbl : List HirId} {x : Nat} {v : HirId} (hx : x < tbl.length)
    (hinj : TblInj tbl) (hfresh : ∀ h ∈ tbl, h ≠ DUMMY_HIR_ID → h ≠ v) :
    TblInj (tbl.set x v) := by
  intro i j hi hj hij hvi hvj
  have hi2 : i < tbl.length := by simpa using hi
  have hj2 : j < tbl.length := by simpa using hj
  by_cases hix : i = x
  · subst hix
    rw [List.getElem_set_self (by omega)] at hvi ⊢
    rw [List.getElem_set_ne (by omega) (by omega)] at hvj ⊢
    exact fun hcon =>
      hfresh (tbl.get ⟨j, hj2⟩) (tbl.get_mem j hj2) hvj hcon.symm
  · rw [List.getElem_set_ne (by omega) (by omega)] at hvi ⊢
    by_cases hjx : j = x
    · subst hjx
      rw [List.getElem_set_self (by omega)] at hvj ⊢
      exact fun hcon =>
        hfresh (tbl.get ⟨i, hi2⟩) (tbl.get_mem i hi2) hvi hcon
    · rw [List.getElem_set_ne (by omega) (by omega)] at hvj ⊢
      exact hinj i j hi2 hj2 hij hvi hvj

/-- Resizing the table (growing with sentinel slots) preserves the
allocator invariant. -/
theorem Inv.resize_table {d : Nat → Option Nat} {s : LowerState} (hinv : Inv d s) (n : Nat) :
    Inv d { s with node_id_to_hir_id := resizeTable s.node_id_to_hir_id n } := by
  refine ⟨hinv.nodupOwners, hinv.lockedOnStack, hinv.stackLocked, ?_, ?_, ?_, hinv.inj.resize n⟩
  · intro h hm hnd
    rcases mem_resizeTable hm with hm' | hm'
    · exact hinv.tblBelowStack h hm' hnd
    · exact absurd hm' hnd
  · intro h hm hnd
    rcases mem_resizeTable hm with hm' | hm'
    · exact hinv.tblBelowMap h hm' hnd
    · exact absurd hm' hnd
  · intro h hm hnd
    rcases mem_resizeTable hm with hm' | hm'
    · exact hinv.tblOwned h hm' hnd
    · exact absurd hm' hnd

/-- Under the invariant, an owner whose def index is on the stack has a
locked map entry: its map counter cannot be live. -/
theorem Inv.stack_map_excl {d : Nat → Option Nat} {s : LowerState}
    (hd : Injd d) (hd0 : Posd d) (hinv : Inv d s)
    {e : Nat × Nat} (he : e ∈ s.current_hir_id_owner) {o c : Nat}
    (hdo : d o = some e.1) (hc : s.item_local_id_counters o = some c) :
    c = HIR_ID_COUNTER_LOCKED := by
  by_contra hne
  obtain ⟨o', hdo', hl'⟩ := hinv.stackLocked e he (hd0 o e.1 hdo)
  have ho : o' = o := hd o' o e.1 hdo' hdo
  subst ho
  rw [hc] at hl'
  exact hne (Option.some.inj hl')

theorem CtrBound.mono {s : LowerState} {B B' : Nat} (h : CtrBound s B) (hb : B ≤ B') :
    CtrBound s B' :=
  ⟨fun e he => le_trans (h.stack e he) hb, fun o c h1 h2 => le_trans (h.map o c h1 h2) hb⟩

theorem stackEvol.refl (l : List (Nat × Nat)) : stackEvol l l := by
  cases l with
  | nil => simp [stackEvol]
  | cons e t => exact ⟨e.2, le_refl _, rfl⟩

/-- Allocating through `lower_node_id` preserves the invariant, advances
at most the innermost stack counter by one, and leaves the counter map
untouched. -/
theorem lower_node_id_inv {d : Nat → Option Nat} {s s' : LowerState} {i : Nat}
    {r : LoweredNodeId} {B : Nat}
    (hd : Injd d) (hd0 : Posd d)
    (hinv : Inv d s) (hB : CtrBound s B)
    (hrun : lower_node_id s i = some (r, s')) :
    Inv d s' ∧ CtrBound s' (B + 1) ∧
      s'.item_local_id_counters = s.item_local_id_counters ∧
      stackEvol s.current_hir_id_owner s'.current_hir_id_owner := by
  unfold lower_node_id lower_node_id_generic at hrun
  by_cases hdum : i = DUMMY_NODE_ID
  · rw [if_pos hdum] at hrun
    obtain ⟨-, rfl⟩ : (⟨DUMMY_NODE_ID, DUMMY_HIR_ID⟩ : LoweredNodeId) = r ∧ s = s' := by
      have := Option.some.inj hrun
      exact ⟨congrArg Prod.fst this, congrArg Prod.snd this⟩
    exact ⟨hinv, hB.mono (Nat.le_succ B), rfl, stackEvol.refl _⟩
  · rw [if_neg hdum] at hrun
    simp only at hrun
    set tbl := resizeTable s.node_id_to_hir_id (i + 1) with htbl
    have hlen : i < tbl.length := by
      rw [htbl, length_resizeTable]; omega
    have hinv₁ : Inv d { s with node_id_to_hir_id := tbl } := hinv.resize_table (i + 1)
    by_cases hcached : tbl.getD i DUMMY_HIR_ID = DUMMY_HIR_ID
    · rw [if_pos hcached] at hrun
      cases hown : s.current_hir_id_owner with
      | nil => rw [hown] at hrun; exact absurd hrun (by simp)
      | cons top rest =>
        obtain ⟨δ, c⟩ := top
        rw [hown] at hrun
        simp only at hrun
        obtain ⟨-, rfl⟩ : (⟨i, ⟨δ, c⟩⟩ : LoweredNodeId) = r ∧
            ({ s with
               node_id_to_hir_id := tbl.set i ⟨δ, c⟩
               current_hir_id_owner := (δ, c + 1) :: rest } : LowerState) = s' := by
          have := Option.some.inj hrun
          exact ⟨congrArg Prod.fst this, congrArg Prod.snd this⟩
        have hmemtop : (δ, c) ∈ s.current_hir_id_owner := by rw [hown]; exact List.mem_cons_self ..
        have hnodup := hinv.nodupOwners
        rw [hown] at hnodup
        have hδrest : δ ∉ rest.map Prod.fst := by
          have h1 : (δ :: rest.map Prod.fst).Nodup := by simpa using hnodup
          exact (List.nodup_cons.1 h1).1
        -- facts about the freshly written id
        have hbelow : ∀ h ∈ tbl, h ≠ DUMMY_HIR_ID → δ = h.owner → h.local_id < c := by
          intro h hm hnd hδ
          exact hinv₁.tblBelowStack h hm hnd (δ, c) hmemtop hδ
        have hfresh : ∀ h ∈ tbl, h ≠ DUMMY_HIR_ID → h ≠ ⟨δ, c⟩ := by
          intro h hm hnd hcon
          subst hcon
          have h1 := hbelow _ hm hnd rfl
          simp at h1
        refine ⟨?_, ?_, rfl, ?_⟩
        · constructor
          · exact hnodup
          · intro o hl
            obtain ⟨δ', hδ', hmem⟩ := hinv.lockedOnStack o hl
            refine ⟨δ', hδ', ?_⟩
            rw [hown] at hmem
            simpa using (by simpa using hmem : δ' = δ ∨ δ' ∈ rest.map Prod.fst)
          · intro e he hne
            have he' : e = (δ, c + 1) ∨ e ∈ rest := by simpa using he
            rcases he' with rfl | he'
            · exact hinv.stackLocked (δ, c) hmemtop (by simpa using hne)
            · exact hinv.stackLocked e (by rw [hown]; exact List.mem_cons_of_mem _ he') hne
          · intro h hm hnd e he hδ
            rcases List.mem_or_eq_of_mem_set hm with hm' | rfl
            · have he' : e = (δ, c + 1) ∨ e ∈ rest := by simpa using he
              rcases he' with rfl | he'
              · have := hbelow h hm' hnd hδ
                simpa using Nat.lt_succ_of_lt this
              · exact hinv₁.tblBelowStack h hm' hnd e
                  (by rw [hown]; exact List.mem_cons_of_mem _ he') hδ
            · have he' : e = (δ, c + 1) ∨ e ∈ rest := by simpa using he
              rcases he' with rfl | he'
              · exact Nat.lt_succ_self c
              · exact absurd (List.mem_map.2 ⟨e, he', by simpa using hδ⟩) hδrest
          · intro h hm hnd o c' hdo hc' hcl
            rcases List.mem_or_eq_of_mem_set hm with hm' | rfl
            · exact hinv₁.tblBelowMap h hm' hnd o c' hdo hc' hcl
            · exact absurd (hinv.stack_map_excl hd hd0 hmemtop hdo hc') hcl
          · intro h hm hnd
            rcases List.mem_or_eq_of_mem_set hm with hm' | rfl
            · rcases hinv₁.tblOwned h hm' hnd with ⟨e, he, hδ⟩ | hright
              · left
                rw [hown] at he
                rcases (by simpa using he : e = (δ, c) ∨ e ∈ rest) with rfl | he'
                · exact ⟨(δ, c + 1), by simp, by simpa using hδ⟩
                · exact ⟨e, by simp [he'], hδ⟩
              · exact Or.inr hright
            · exact Or.inl ⟨(δ, c + 1), by simp, rfl⟩
          · exact TblInj.store hlen hinv₁.inj hfresh
        · constructor
          · intro e he
            rcases (by simpa using he : e = (δ, c + 1) ∨ e ∈ rest) with rfl | he'
            · have := hB.stack (δ, c) hmemtop
              simpa using Nat.succ_le_succ this
            · exact le_trans (hB.stack e (by rw [hown]; exact List.mem_cons_of_mem _ he'))
                (Nat.le_succ B)
          · intro o c' h1 h2
            exact le_trans (hB.map o c' h1 h2) (Nat.le_succ B)
        · exact ⟨c + 1, Nat.le_succ c, rfl⟩
    · rw [if_neg hcached] at hrun
      obtain ⟨-, rfl⟩ : (⟨i, tbl.getD i DUMMY_HIR_ID⟩ : LoweredNodeId) = r ∧
          ({ s with node_id_to_hir_id := tbl } : LowerState) = s' := by
        have := Option.some.inj hrun
        exact ⟨congrArg Prod.fst this, congrArg Prod.snd this⟩
      exact ⟨hinv₁, CtrBound.mono ⟨hB.stack, hB.map⟩ (Nat.le_succ B), rfl, stackEvol.refl _⟩

/-- Allocating through `lower_node_id_with_owner` preserves the
invariant, advances only the owner's map counter, and leaves the owner
stack untouched. -/
theorem lower_node_id_with_owner_inv {d : Nat → Option Nat} {s s' : LowerState}
    {i o : Nat} {r : LoweredNodeId} {B : Nat}
    (hd : Injd d) (hd0 : Posd d)
    (hinv : Inv d s) (hB : CtrBound s B) (hBL : B + 1 < HIR_ID_COUNTER_LOCKED)
    (hrun : lower_node_id_with_owner d s i o = some (r, s')) :
    Inv d s' ∧ CtrBound s' (B + 1) ∧
      (∀ x, s'.item_local_id_counters x = some HIR_ID_COUNTER_LOCKED ↔
        s.item_local_id_counters x = some HIR_ID_COUNTER_LOCKED) ∧
      s'.current_hir_id_owner = s.current_hir_id_owner := by
  unfold lower_node_id_with_owner lower_node_id_generic at hrun
  by_cases hdum : i = DUMMY_NODE_ID
  · rw [if_pos hdum] at hrun
    obtain rfl : s = s' := congrArg Prod.snd (Option.some.inj hrun)
    exact ⟨hinv, hB.mono (Nat.le_succ B), fun x => Iff.rfl, rfl⟩
  · rw [if_neg hdum] at hrun
    simp only at hrun
    set tbl := resizeTable s.node_id_to_hir_id (i + 1) with htbl
    have hlen : i < tbl.length := by
      rw [htbl, length_resizeTable]; omega
    have hinv₁ : Inv d { s with node_id_to_hir_id := tbl } := hinv.resize_table (i + 1)
    by_cases hcached : tbl.getD i DUMMY_HIR_ID = DUMMY_HIR_ID
    · rw [if_pos hcached] at hrun
      cases hc : s.item_local_id_counters o with
      | none => rw [hc] at hrun; exact absurd hrun (by simp)
      | some c =>
        rw [hc] at hrun
        simp only at hrun
        by_cases hcl : c = HIR_ID_COUNTER_LOCKED
        · rw [if_pos hcl] at hrun; exact absurd hrun (by simp)
        · rw [if_neg hcl] at hrun
          cases hδ : d o with
          | none => rw [hδ] at hrun; exact absurd hrun (by simp)
          | some δ =>
            rw [hδ] at hrun
            simp only at hrun
            obtain ⟨-, rfl⟩ : (⟨i, ⟨δ, c⟩⟩ : LoweredNodeId) = r ∧
                ({ s with
                   node_id_to_hir_id := tbl.set i ⟨δ, c⟩
                   item_local_id_counters :=
                     mapInsert s.item_local_id_counters o (c + 1) } : LowerState) = s' := by
              have := Option.some.inj hrun
              exact ⟨congrArg Prod.fst this, congrArg Prod.snd this⟩
            have hcB : c ≤ B := hB.map o c hc hcl
            have hc1 : c + 1 ≠ HIR_ID_COUNTER_LOCKED := by omega
            have hnostack : ∀ e ∈ s.current_hir_id_owner, e.1 ≠ δ := by
              intro e he hcon
              exact hcl (hinv.stack_map_excl hd hd0 he (hcon ▸ hδ) hc)
            have hbelow : ∀ h ∈ tbl, h ≠ DUMMY_HIR_ID → h.owner = δ → h.local_id < c := by
              intro h hm hnd hδ'
              exact hinv₁.tblBelowMap h hm hnd o c (hδ' ▸ hδ) hc hcl
            have hfresh : ∀ h ∈ tbl, h ≠ DUMMY_HIR_ID → h ≠ ⟨δ, c⟩ := by
              intro h hm hnd hcon
              subst hcon
              have h1 := hbelow _ hm hnd rfl
              simp at h1
            refine ⟨?_, ?_, ?_, rfl⟩
            · constructor
              · exact hinv.nodupOwners
              · intro x hl
                simp only [mapInsert] at hl
                by_cases hxo : x = o
                · rw [if_pos hxo] at hl
                  exact absurd (Option.some.inj hl) hc1
                · rw [if_neg hxo] at hl
                  exact hinv.lockedOnStack x hl
              · intro e he hne
                obtain ⟨x, hdx, hlx⟩ := hinv.stackLocked e he hne
                refine ⟨x, hdx, ?_⟩
                simp only [mapInsert]
                have hxo : x ≠ o := by
                  intro hcon
                  rw [hcon, hc] at hlx
                  exact hcl (Option.some.inj hlx)
                rw [if_neg hxo]
                exact hlx
              · intro h hm hnd e he hδ'
                rcases List.mem_or_eq_of_mem_set hm with hm' | rfl
                · exact hinv₁.tblBelowStack h hm' hnd e he hδ'
                · exact absurd (by simpa using hδ') (hnostack e he)
              · intro h hm hnd x c' hdx hcx hclx
                simp only [mapInsert] at hcx
                rcases List.mem_or_eq_of_mem_set hm with hm' | rfl
                · by_cases hxo : x = o
                  · rw [if_pos hxo] at hcx
                    obtain rfl : c + 1 = c' := Option.some.inj hcx
                    have hδo : h.owner = δ := by
                      rw [hxo, hδ] at hdx
                      exact (Option.some.inj hdx).symm
                    have := hbelow h hm' hnd hδo
                    omega
                  · rw [if_neg hxo] at hcx
                    exact hinv₁.tblBelowMap h hm' hnd x c' hdx hcx hclx
                · by_cases hxo : x = o
                  · rw [if_pos hxo] at hcx
                    obtain rfl : c + 1 = c' := Option.some.inj hcx
                    exact Nat.lt_succ_self c
                  · rw [if_neg hxo] at hcx
                    have hxeq : x = o := hd x o δ (by simpa using hdx) hδ
                    exact absurd hxeq hxo
              · intro h hm hnd
                rcases List.mem_or_eq_of_mem_set hm with hm' | rfl
                · rcases hinv₁.tblOwned h hm' hnd with hleft | ⟨x, c', hdx, hcx, hclx⟩
                  · exact Or.inl hleft
                  · right
                    by_cases hxo : x = o
                    · exact ⟨o, c + 1, hxo ▸ hdx, by simp [mapInsert], hc1⟩
                    · refine ⟨x, c', hdx, ?_, hclx⟩
                      have hcx' : s.item_local_id_counters x = some c' := hcx
                      simp [mapInsert, hxo, hcx']
                · exact Or.inr ⟨o, c + 1, by simpa using hδ, by simp [mapInsert], hc1⟩
              · exact TblInj.store hlen hinv₁.inj hfresh
            · constructor
              · intro e he
                exact le_trans (hB.stack e he) (Nat.le_succ B)
              · intro x c' hcx hclx
                simp only [mapInsert] at hcx
                by_cases hxo : x = o
                · rw [if_pos hxo] at hcx
                  obtain rfl : c + 1 = c' := Option.some.inj hcx
                  omega
                · rw [if_neg hxo] at hcx
                  exact le_trans (hB.map x c' hcx hclx) (Nat.le_succ B)
            · intro x
              simp only [mapInsert]
              by_cases hxo : x = o
              · rw [if_pos hxo, hxo, hc]
                constructor
                · intro hcon; exact absurd (Option.some.inj hcon) hc1
                · intro hcon; exact absurd (Option.some.inj hcon) hcl
              · rw [if_neg hxo]
    · rw [if_neg hcached] at hrun
      obtain ⟨-, rfl⟩ : (⟨i, tbl.getD i DUMMY_HIR_ID⟩ : LoweredNodeId) = r ∧
          ({ s with node_id_to_hir_id := tbl } : LowerState) = s' := by
        have := Option.some.inj hrun
        exact ⟨congrArg Prod.fst this, congrArg Prod.snd this⟩
      exact ⟨hinv₁, CtrBound.mono ⟨hB.stack, hB.map⟩ (Nat.le_succ B), fun x => Iff.rfl, rfl⟩

theorem stackEvol.trans {a b c : List (Nat × Nat)} (h1 : stackEvol a b)
    (h2 : stackEvol b c) : stackEvol a c := by
  cases a with
  | nil =>
    simp only [stackEvol] at h1
    subst h1
    exact h2
  | cons e t =>
    obtain ⟨δ, c0⟩ := e
    obtain ⟨c', hc', rfl⟩ := h1
    obtain ⟨c'', hc'', rfl⟩ := h2
    exact ⟨c'', le_trans hc' hc'', rfl⟩

theorem OpsOK.congr : ∀ (ops : List Op) (L L' : Nat → Prop),
    (∀ x, L' x ↔ L x) → OpsOK ops L → OpsOK ops L'
  | [], _, _, _, _ => by simp [OpsOK]
  | .withOwner o body :: rest, L, L', hiff, hOK => by
    simp only [OpsOK] at hOK ⊢
    obtain ⟨h1, h2, h3⟩ := hOK
    exact ⟨fun hcon => h1 ((hiff o).1 hcon),
      OpsOK.congr body _ _ (fun x => or_congr (hiff x) Iff.rfl) h2,
      OpsOK.congr rest _ _ hiff h3⟩
  | .lowerNode i :: rest, L, L', hiff, hOK => by
    simp only [OpsOK] at hOK ⊢
    exact OpsOK.congr rest L L' hiff hOK
  | .lowerNodeWithOwner i o :: rest, L, L', hiff, hOK => by
    simp only [OpsOK] at hOK ⊢
    exact OpsOK.congr rest L L' hiff hOK
  | .allocCounter o :: rest, L, L', hiff, hOK => by
    simp only [OpsOK] at hOK ⊢
    exact OpsOK.congr rest L L' hiff hOK

/-- An owner with no stored counter owns no mapped id yet: its def index
appears nowhere in the table. -/
theorem Inv.fresh_owner {d : Nat → Option Nat} {s : LowerState}
    (hd : Injd d) (hd0 : Posd d) (hinv : Inv d s) {o δ : Nat}
    (hδ : d o = some δ) (hnone : s.item_local_id_counters o = none) :
    ∀ h ∈ s.node_id_to_hir_id, h ≠ DUMMY_HIR_ID → h.owner ≠ δ := by
  intro h hm hnd hcon
  rcases hinv.tblOwned h hm hnd with ⟨e, he, hδe⟩ | ⟨x, c', hdx, hcx, hclx⟩
  · obtain ⟨o', hdo', hlo'⟩ := hinv.stackLocked e he (by
      rw [hδe, hcon]; exact hd0 o δ hδ)
    have : o' = o := hd o' o δ (by rw [hδe, hcon] at hdo'; exact hdo') hδ
    rw [this, hnone] at hlo'
    exact Option.noConfusion hlo'
  · have : x = o := hd x o δ (by rw [hcon] at hdx; exact hdx) hδ
    rw [this, hnone] at hcx
    exact Option.noConfusion hcx

/-- Registering a fresh owner's counter (at 0) preserves the invariant. -/
theorem register_counter_inv {d : Nat → Option Nat} {s : LowerState} {o : Nat} {B : Nat}
    (hd : Injd d) (hd0 : Posd d)
    (hinv : Inv d s) (hB : CtrBound s B)
    (hnone : s.item_local_id_counters o = none)
    (hfresh : ∀ h ∈ s.node_id_to_hir_id, h ≠ DUMMY_HIR_ID → d o ≠ some h.owner) :
    Inv d { s with item_local_id_counters := mapInsert s.item_local_id_counters o 0 } ∧
    CtrBound { s with item_local_id_counters := mapInsert s.item_local_id_counters o 0 } B ∧
    (∀ x, mapInsert s.item_local_id_counters o 0 x = some HIR_ID_COUNTER_LOCKED ↔
      s.item_local_id_counters x = some HIR_ID_COUNTER_LOCKED) := by
  have h0L : (0 : Nat) ≠ HIR_ID_COUNTER_LOCKED := by
    simp [HIR_ID_COUNTER_LOCKED]
  have hlock_iff : ∀ x, mapInsert s.item_local_id_counters o 0 x = some HIR_ID_COUNTER_LOCKED ↔
      s.item_local_id_counters x = some HIR_ID_COUNTER_LOCKED := by
    intro x
    simp only [mapInsert]
    by_cases hxo : x = o
    · rw [if_pos hxo, hxo, hnone]
      constructor
      · intro hcon; exact absurd (Option.some.inj hcon) h0L
      · intro hcon; exact Option.noConfusion hcon
    · rw [if_neg hxo]
  refine ⟨?_, ?_, hlock_iff⟩
  · constructor
    · exact hinv.nodupOwners
    · intro x hl
      exact hinv.lockedOnStack x ((hlock_iff x).1 hl)
    · intro e he hne
      obtain ⟨x, hdx, hlx⟩ := hinv.stackLocked e he hne
      refine ⟨x, hdx, ?_⟩
      simp only [mapInsert]
      have hxo : x ≠ o := by
        intro hcon
        rw [hcon, hnone] at hlx
        exact Option.noConfusion hlx
      rw [if_neg hxo]
      exact hlx
    · exact hinv.tblBelowStack
    · intro h hm hnd x c' hdx hcx hclx
      simp only [mapInsert] at hcx
      by_cases hxo : x = o
      · exfalso
        rw [hxo] at hdx
        exact hfresh h hm hnd hdx
      · rw [if_neg hxo] at hcx
        exact hinv.tblBelowMap h hm hnd x c' hdx hcx hclx
    · intro h hm hnd
      rcases hinv.tblOwned h hm hnd with hleft | ⟨x, c', hdx, hcx, hclx⟩
      · exact Or.inl hleft
      · right
        have hxo : x ≠ o := by
          intro hcon
          rw [hcon, hnone] at hcx
          exact Option.noConfusion hcx
        exact ⟨x, c', hdx, by simp [mapInsert, hxo, hcx], hclx⟩
    · exact hinv.inj
  · constructor
    · exact hB.stack
    · intro x c' hcx hclx
      simp only [mapInsert] at hcx
      by_cases hxo : x = o
      · rw [if_pos hxo] at hcx
        obtain rfl : (0 : Nat) = c' := Option.some.inj hcx
        exact Nat.zero_le B
      · rw [if_neg hxo] at hcx
        exact hB.map x c' hcx hclx

/-- `allocate_hir_id_counter` preserves the invariant. -/
theorem allocate_hir_id_counter_inv {d : Nat → Option Nat} {s s' : LowerState}
    {o : Nat} {B : Nat}
    (hd : Injd d) (hd0 : Posd d)
    (hinv : Inv d s) (hB : CtrBound s B) (hBL : B + 1 < HIR_ID_COUNTER_LOCKED)
    (hrun : allocate_hir_id_counter d s o = some s') :
    Inv d s' ∧ CtrBound s' (B + 1) ∧
      (∀ x, s'.item_local_id_counters x = some HIR_ID_COUNTER_LOCKED ↔
        s.item_local_id_counters x = some HIR_ID_COUNTER_LOCKED) ∧
      s'.current_hir_id_owner = s.current_hir_id_owner := by
  unfold allocate_hir_id_counter at hrun
  cases hc : s.item_local_id_counters o with
  | some c => rw [hc] at hrun; exact absurd hrun (by simp)
  | none =>
    rw [hc] at hrun
    simp only [Option.map_eq_some'] at hrun
    obtain ⟨⟨r, s₂⟩, hrun₂, rfl⟩ := hrun
    have hfresh : ∀ h ∈ s.node_id_to_hir_id, h ≠ DUMMY_HIR_ID → d o ≠ some h.owner := by
      intro h hm hnd hcon
      exact hinv.fresh_owner hd hd0 hcon hc h hm hnd rfl
    obtain ⟨hinv₁, hB₁, hiff₁⟩ := register_counter_inv hd hd0 hinv hB hc hfresh
    obtain ⟨hinv₂, hB₂, hiff₂, hown₂⟩ :=
      lower_node_id_with_owner_inv hd hd0 hinv₁ hB₁ hBL hrun₂
    exact ⟨hinv₂, hB₂, fun x => (hiff₂ x).trans (hiff₁ x), hown₂⟩

/-- Entering `with_hir_id_owner` (lock the map slot, push the saved
counter) preserves the invariant. -/
theorem push_owner_inv {d : Nat → Option Nat} {s : LowerState} {o counter δ B : Nat}
    (hd : Injd d) (hd0 : Posd d)
    (hinv : Inv d s) (hB : CtrBound s B)
    (hc : s.item_local_id_counters o = some counter)
    (hcl : counter ≠ HIR_ID_COUNTER_LOCKED)
    (hδ : d o = some δ) :
    Inv d { s with
      item_local_id_counters := mapInsert s.item_local_id_counters o HIR_ID_COUNTER_LOCKED
      current_hir_id_owner := (δ, counter) :: s.current_hir_id_owner } ∧
    CtrBound { s with
      item_local_id_counters := mapInsert s.item_local_id_counters o HIR_ID_COUNTER_LOCKED
      current_hir_id_owner := (δ, counter) :: s.current_hir_id_owner } B := by
  have hδstack : ∀ e ∈ s.current_hir_id_owner, e.1 ≠ δ := by
    intro e he hcon
    exact hcl (hinv.stack_map_excl hd hd0 he (hcon ▸ hδ) hc)
  constructor
  · constructor
    · refine List.nodup_cons.2 ⟨?_, hinv.nodupOwners⟩
      intro hmem
      obtain ⟨e, he, hfst⟩ := List.mem_map.1 hmem
      exact hδstack e he hfst
    · intro x hl
      simp only [mapInsert] at hl
      by_cases hxo : x = o
      · refine ⟨δ, hxo ▸ hδ, ?_⟩
        simp
      · rw [if_neg hxo] at hl
        obtain ⟨δ', hδ', hmem⟩ := hinv.lockedOnStack x hl
        exact ⟨δ', hδ', by simp [hmem]⟩
    · intro e he hne
      rcases (by simpa using he :
          e = (δ, counter) ∨ e ∈ s.current_hir_id_owner) with rfl | he'
      · exact ⟨o, hδ, by simp [mapInsert]⟩
      · obtain ⟨x, hdx, hlx⟩ := hinv.stackLocked e he' hne
        refine ⟨x, hdx, ?_⟩
        simp only [mapInsert]
        have hxo : x ≠ o := by
          intro hcon
          rw [hcon, hc] at hlx
          exact hcl (Option.some.inj hlx)
        rw [if_neg hxo]
        exact hlx
    · intro h hm hnd e he hδ'
      rcases (by simpa using he :
          e = (δ, counter) ∨ e ∈ s.current_hir_id_owner) with rfl | he'
      · exact hinv.tblBelowMap h hm hnd o counter (by simpa using hδ' ▸ hδ) hc hcl
      · exact hinv.tblBelowStack h hm hnd e he' hδ'
    · intro h hm hnd x c' hdx hcx hclx
      simp only [mapInsert] at hcx
      by_cases hxo : x = o
      · rw [if_pos hxo] at hcx
        exact absurd (Option.some.inj hcx).symm hclx
      · rw [if_neg hxo] at hcx
        exact hinv.tblBelowMap h hm hnd x c' hdx hcx hclx
    · intro h hm hnd
      rcases hinv.tblOwned h hm hnd with ⟨e, he, hfst⟩ | ⟨x, c', hdx, hcx, hclx⟩
      · exact Or.inl ⟨e, by simp [he], hfst⟩
      · by_cases hxo : x = o
        · left
          refine ⟨(δ, counter), by simp, ?_⟩
          rw [hxo, hδ] at hdx
          exact Option.some.inj hdx
        · exact Or.inr ⟨x, c', hdx, by simp [mapInsert, hxo, hcx], hclx⟩
    · exact hinv.inj
  · constructor
    · intro e he
      rcases (by simpa using he :
          e = (δ, counter) ∨ e ∈ s.current_hir_id_owner) with rfl | he'
      · exact hB.map o counter hc hcl
      · exact hB.stack e he'
    · intro x c' hcx hclx
      simp only [mapInsert] at hcx
      by_cases hxo : x = o
      · rw [if_pos hxo] at hcx
        exact absurd (Option.some.inj hcx).symm hclx
      · rw [if_neg hxo] at hcx
        exact hB.map x c' hcx hclx

/-- Leaving `with_hir_id_owner` (pop the advanced counter, write it back
over the lock) preserves the invariant. -/
theorem pop_owner_inv {d : Nat → Option Nat} {s₂ : LowerState} {o δ nc B₂ : Nat}
    {t : List (Nat × Nat)}
    (hd : Injd d) (hd0 : Posd d)
    (hinv : Inv d s₂) (hB : CtrBound s₂ B₂)
    (hown : s₂.current_hir_id_owner = (δ, nc) :: t)
    (hlk : s₂.item_local_id_counters o = some HIR_ID_COUNTER_LOCKED)
    (hδ : d o = some δ)
    (hncl : nc ≠ HIR_ID_COUNTER_LOCKED) :
    Inv d { s₂ with
      current_hir_id_owner := t
      item_local_id_counters := mapInsert s₂.item_local_id_counters o nc } ∧
    CtrBound { s₂ with
      current_hir_id_owner := t
      item_local_id_counters := mapInsert s₂.item_local_id_counters o nc } B₂ := by
  have hnodup := hinv.nodupOwners
  rw [hown] at hnodup
  have hδt : δ ∉ t.map Prod.fst := by
    have h1 : (δ :: t.map Prod.fst).Nodup := by simpa using hnodup
    exact (List.nodup_cons.1 h1).1
  have hheadmem : (δ, nc) ∈ s₂.current_hir_id_owner := by
    rw [hown]; exact List.mem_cons_self ..
  constructor
  · constructor
    · have h1 : (δ :: t.map Prod.fst).Nodup := by simpa using hnodup
      exact (List.nodup_cons.1 h1).2
    · intro x hl
      simp only [mapInsert] at hl
      by_cases hxo : x = o
      · rw [if_pos hxo] at hl
        exact absurd (Option.some.inj hl) hncl
      · rw [if_neg hxo] at hl
        obtain ⟨δ', hδ', hmem⟩ := hinv.lockedOnStack x hl
        rw [hown] at hmem
        rcases (by simpa using hmem : δ' = δ ∨ δ' ∈ t.map Prod.fst) with rfl | hmem'
        · exact absurd (hd x o δ' hδ' hδ) hxo
        · exact ⟨δ', hδ', hmem'⟩
    · intro e he hne
      obtain ⟨x, hdx, hlx⟩ := hinv.stackLocked e
        (by rw [hown]; exact List.mem_cons_of_mem _ he) hne
      have hxo : x ≠ o := by
        intro hcon
        rw [hcon, hδ] at hdx
        have : e.1 = δ := (Option.some.inj hdx).symm
        exact hδt (this ▸ List.mem_map.2 ⟨e, he, rfl⟩)
      exact ⟨x, hdx, by simp [mapInsert, hxo, hlx]⟩
    · intro h hm hnd e he hδ'
      exact hinv.tblBelowStack h hm hnd e (by rw [hown]; exact List.mem_cons_of_mem _ he) hδ'
    · intro h hm hnd x c' hdx hcx hclx
      simp only [mapInsert] at hcx
      by_cases hxo : x = o
      · rw [if_pos hxo] at hcx
        obtain rfl : nc = c' := Option.some.inj hcx
        have hδo : δ = h.owner := by
          rw [hxo, hδ] at hdx
          exact Option.some.inj hdx
        exact hinv.tblBelowStack h hm hnd (δ, nc) hheadmem hδo
      · rw [if_neg hxo] at hcx
        exact hinv.tblBelowMap h hm hnd x c' hdx hcx hclx
    · intro h hm hnd
      rcases hinv.tblOwned h hm hnd with ⟨e, he, hfst⟩ | ⟨x, c', hdx, hcx, hclx⟩
      · rw [hown] at he
        rcases (by simpa using he : e = (δ, nc) ∨ e ∈ t) with rfl | he'
        · right
          exact ⟨o, nc, by rw [hδ]; exact congrArg some (by simpa using hfst),
            by simp [mapInsert], hncl⟩
        · exact Or.inl ⟨e, he', hfst⟩
      · have hxo : x ≠ o := by
          intro hcon
          rw [hcon, hlk] at hcx
          exact hclx (Option.some.inj hcx).symm
        exact Or.inr ⟨x, c', hdx, by simp [mapInsert, hxo, hcx], hclx⟩
    · exact hinv.inj
  · constructor
    · intro e he
      exact hB.stack e (by rw [hown]; exact List.mem_cons_of_mem _ he)
    · intro x c' hcx hclx
      simp only [mapInsert] at hcx
      by_cases hxo : x = o
      · rw [if_pos hxo] at hcx
        obtain rfl : nc = c' := Option.some.inj hcx
        exact hB.stack (δ, nc) hheadmem
      · rw [if_neg hxo] at hcx
        exact hB.map x c' hcx hclx

/-- Master invariant theorem: a successful run of allocator operations
from an invariant-satisfying state ends in an invariant-satisfying state,
with the owner stack restored (except the innermost counter), the locked
set unchanged, and all counters bounded by the allocation budget. -/
theorem runOps_inv {d : Nat → Option Nat} (hd : Injd d) (hd0 : Posd d) :
    ∀ (ops : List Op) (s s' : LowerState) (B : Nat), Inv d s → CtrBound s B →
      B + allocCount ops < HIR_ID_COUNTER_LOCKED →
      OpsOK ops (fun x => s.item_local_id_counters x = some HIR_ID_COUNTER_LOCKED) →
      runOps d ops s = some s' →
      Inv d s' ∧ CtrBound s' (B + allocCount ops) ∧
        (∀ x, s'.item_local_id_counters x = some HIR_ID_COUNTER_LOCKED ↔
          s.item_local_id_counters x = some HIR_ID_COUNTER_LOCKED) ∧
        stackEvol s.current_hir_id_owner s'.current_hir_id_owner
  | [], s, s', B, hinv, hB, _, _, hrun => by
    simp only [runOps] at hrun
    obtain rfl : s = s' := Option.some.inj hrun
    exact ⟨hinv, hB.mono (Nat.le_add_right B _), fun x => Iff.rfl, stackEvol.refl _⟩
  | .lowerNode i :: rest, s, s', B, hinv, hB, hbud, hOK, hrun => by
    simp only [runOps] at hrun
    cases h1 : lower_node_id s i with
    | none => rw [h1] at hrun; exact absurd hrun (by simp)
    | some rs =>
      obtain ⟨r, s₁⟩ := rs
      rw [h1] at hrun
      simp only at hrun
      obtain ⟨hinv₁, hB₁, hctr₁, hse₁⟩ := lower_node_id_inv hd hd0 hinv hB h1
      have hOK₁ : OpsOK rest
          (fun x => s₁.item_local_id_counters x = some HIR_ID_COUNTER_LOCKED) := by
        refine OpsOK.congr rest _ _ (fun x => by rw [hctr₁]) ?_
        simpa [OpsOK] using hOK
      have hbud₁ : (B + 1) + allocCount rest < HIR_ID_COUNTER_LOCKED := by
        simp only [allocCount] at hbud; omega
      obtain ⟨hinv', hB', hctr', hse'⟩ :=
        runOps_inv hd hd0 rest s₁ s' (B + 1) hinv₁ hB₁ hbud₁ hOK₁ hrun
      refine ⟨hinv', hB'.mono (by simp only [allocCount]; omega), ?_, hse₁.trans hse'⟩
      intro x
      rw [hctr' x, hctr₁]
  | .lowerNodeWithOwner i o :: rest, s, s', B, hinv, hB, hbud, hOK, hrun => by
    simp only [runOps] at hrun
    cases h1 : lower_node_id_with_owner d s i o with
    | none => rw [h1] at hrun; exact absurd hrun (by simp)
    | some rs =>
      obtain ⟨r, s₁⟩ := rs
      rw [h1] at hrun
      simp only at hrun
      have hBL : B + 1 < HIR_ID_COUNTER_LOCKED := by
        simp only [allocCount] at hbud; omega
      obtain ⟨hinv₁, hB₁, hctr₁, hown₁⟩ := lower_node_id_with_owner_inv hd hd0 hinv hB hBL h1
      have hOK₁ : OpsOK rest
          (fun x => s₁.item_local_id_counters x = some HIR_ID_COUNTER_LOCKED) := by
        refine OpsOK.congr rest _ _ (fun x => hctr₁ x) ?_
        simpa [OpsOK] using hOK
      have hbud₁ : (B + 1) + allocCount rest < HIR_ID_COUNTER_LOCKED := by
        simp only [allocCount] at hbud; omega
      obtain ⟨hinv', hB', hctr', hse'⟩ :=
        runOps_inv hd hd0 rest s₁ s' (B + 1) hinv₁ hB₁ hbud₁ hOK₁ hrun
      refine ⟨hinv', hB'.mono (by simp only [allocCount]; omega), ?_, ?_⟩
      · intro x
        rw [hctr' x, hctr₁ x]
      · rw [← hown₁]
        exact hse'
  | .allocCounter o :: rest, s, s', B, hinv, hB, hbud, hOK, hrun => by
    simp only [runOps] at hrun
    cases h1 : allocate_hir_id_counter d s o with
    | none => rw [h1] at hrun; exact absurd hrun (by simp)
    | some s₁ =>
      rw [h1] at hrun
      simp only at hrun
      have hBL : B + 1 < HIR_ID_COUNTER_LOCKED := by
        simp only [allocCount] at hbud; omega
      obtain ⟨hinv₁, hB₁, hctr₁, hown₁⟩ := allocate_hir_id_counter_inv hd hd0 hinv hB hBL h1
      have hOK₁ : OpsOK rest
          (fun x => s₁.item_local_id_counters x = some HIR_ID_COUNTER_LOCKED) := by
        refine OpsOK.congr rest _ _ (fun x => hctr₁ x) ?_
        simpa [OpsOK] using hOK
      have hbud₁ : (B + 1) + allocCount rest < HIR_ID_COUNTER_LOCKED := by
        simp only [allocCount] at hbud; omega
      obtain ⟨hinv', hB', hctr', hse'⟩ :=
        runOps_inv hd hd0 rest s₁ s' (B + 1) hinv₁ hB₁ hbud₁ hOK₁ hrun
      refine ⟨hinv', hB'.mono (by simp only [allocCount]; omega), ?_, ?_⟩
      · intro x
        rw [hctr' x, hctr₁ x]
      · rw [← hown₁]
        exact hse'
  | .withOwner o body :: rest, s, s', B, hinv, hB, hbud, hOK, hrun => by
    simp only [runOps] at hrun
    cases hc : s.item_local_id_counters o with
    | none => rw [hc] at hrun; exact absurd hrun (by simp)
    | some counter =>
      rw [hc] at hrun
      simp only at hrun
      cases hδ : d o with
      | none => rw [hδ] at hrun; exact absurd hrun (by simp)
      | some δ =>
        rw [hδ] at hrun
        simp only at hrun
        obtain ⟨hnl, hOKbody, hOKrest⟩ :
            ¬ (s.item_local_id_counters o = some HIR_ID_COUNTER_LOCKED) ∧
            OpsOK body (fun x =>
              s.item_local_id_counters x = some HIR_ID_COUNTER_LOCKED ∨ x = o) ∧
            OpsOK rest (fun x =>
              s.item_local_id_counters x = some HIR_ID_COUNTER_LOCKED) := by
          simpa [OpsOK] using hOK
        have hcl : counter ≠ HIR_ID_COUNTER_LOCKED := by
          intro hcon
          exact hnl (by rw [hc, hcon])
        obtain ⟨hinv₁, hB₁⟩ := push_owner_inv hd hd0 hinv hB hc hcl hδ
        cases hb : runOps d body { s with
            item_local_id_counters :=
              mapInsert s.item_local_id_counters o HIR_ID_COUNTER_LOCKED
            current_hir_id_owner := (δ, counter) :: s.current_hir_id_owner } with
        | none => rw [hb] at hrun; exact absurd hrun (by simp)
        | some s₂ =>
          rw [hb] at hrun
          simp only at hrun
          have hOKbody₁ : OpsOK body (fun x =>
              (mapInsert s.item_local_id_counters o HIR_ID_COUNTER_LOCKED) x =
                some HIR_ID_COUNTER_LOCKED) := by
            refine OpsOK.congr body _ _ (fun x => ?_) hOKbody
            simp only [mapInsert]
            by_cases hxo : x = o
            · simp [hxo]
            · simp [hxo]
          have hbud₁ : B + allocCount body < HIR_ID_COUNTER_LOCKED := by
            simp only [allocCount] at hbud; omega
          obtain ⟨hinv₂, hB₂, hctr₂, hse₂⟩ :=
            runOps_inv hd hd0 body _ s₂ B hinv₁ hB₁ hbud₁ hOKbody₁ hb
          obtain ⟨nc, hncge, hown₂⟩ := hse₂
          rw [hown₂] at hrun
          simp only at hrun
          have hlk₂ : s₂.item_local_id_counters o = some HIR_ID_COUNTER_LOCKED :=
            (hctr₂ o).2 (by simp [mapInsert])
          rw [if_pos ⟨trivial, hncge, hlk₂⟩] at hrun
          have hncB : nc ≤ B + allocCount body :=
            hB₂.stack (δ, nc) (by rw [hown₂]; exact List.mem_cons_self ..)
          have hncl : nc ≠ HIR_ID_COUNTER_LOCKED := by
            simp only [allocCount] at hbud; omega
          obtain ⟨hinv₃, hB₃⟩ := pop_owner_inv hd hd0 hinv₂ hB₂ hown₂ hlk₂ hδ hncl
          have hctr₃ : ∀ x,
              (mapInsert s₂.item_local_id_counters o nc) x = some HIR_ID_COUNTER_LOCKED ↔
              s.item_local_id_counters x = some HIR_ID_COUNTER_LOCKED := by
            intro x
            simp only [mapInsert]
            by_cases hxo : x = o
            · rw [if_pos hxo, hxo, hc]
              constructor
              · intro hcon; exact absurd (Option.some.inj hcon) hncl
              · intro hcon; exact absurd (Option.some.inj hcon) hcl
            · rw [if_neg hxo]
              rw [hctr₂ x]
              simp [mapInsert, hxo]
          have hOKrest₁ : OpsOK rest (fun x =>
              (mapInsert s₂.item_local_id_counters o nc) x =
                some HIR_ID_COUNTER_LOCKED) :=
            OpsOK.congr rest _ _ hctr₃ hOKrest
          have hbud₃ : (B + allocCount body) + allocCount rest < HIR_ID_COUNTER_LOCKED := by
            simp only [allocCount] at hbud; omega
          obtain ⟨hinv', hB', hctr', hse'⟩ :=
            runOps_inv hd hd0 rest _ s' (B + allocCount body) hinv₃ hB₃ hbud₃ hOKrest₁ hrun
          refine ⟨hinv', hB'.mono (by simp only [allocCount]; omega), ?_, hse'⟩
          intro x
          rw [hctr' x]
          exact hctr₃ x

theorem Inv_initState (d : Nat → Option Nat) : Inv d initState := by
  constructor
  · simp [initState]
  · intro o hl
    simp [initState] at hl
  · intro e he hne
    simp [initState] at he
    rw [he] at hne
    simp [CRATE_DEF_INDEX] at hne
  · intro h hm
    simp [initState] at hm
  · intro h hm
    simp [initState] at hm
  · intro h hm
    simp [initState] at hm
  · intro i j hi hj
    simp [initState] at hi

theorem CtrBound_initState : CtrBound initState 0 := by
  constructor
  · intro e he
    simp [initState] at he
    rw [he]
  · intro o c hc
    simp [initState] at hc

theorem NoReent_OpsOK : ∀ (ops : List Op) (forb : List Nat),
    NoReent ops forb = true → ∀ (L : Nat → Prop), (∀ x, L x → x ∈ forb) →
    OpsOK ops L
  | [], _, _, _, _ => by simp [OpsOK]
  | .withOwner o body :: rest, forb, hwf, L, hsub => by
    simp only [NoReent, Bool.and_eq_true, Bool.not_eq_true'] at hwf
    obtain ⟨⟨hno, hbody⟩, hrest⟩ := hwf
    simp only [OpsOK]
    refine ⟨?_, ?_, ?_⟩
    · intro hcon
      have hmem := hsub o hcon
      have : o ∉ forb := by simpa using hno
      exact this hmem
    · refine NoReent_OpsOK body (o :: forb) hbody _ ?_
      intro x hx
      rcases hx with hx | rfl
      · exact List.mem_cons_of_mem _ (hsub x hx)
      · exact List.mem_cons_self ..
    · exact NoReent_OpsOK rest forb hrest L hsub
  | .lowerNode i :: rest, forb, hwf, L, hsub => by
    simp only [NoReent] at hwf
    simp only [OpsOK]
    exact NoReent_OpsOK rest forb hwf L hsub
  | .lowerNodeWithOwner i o :: rest, forb, hwf, L, hsub => by
    simp only [NoReent] at hwf
    simp only [OpsOK]
    exact NoReent_OpsOK rest forb hwf L hsub
  | .allocCounter o :: rest, forb, hwf, L, hsub => by
    simp only [NoReent] at hwf
    simp only [OpsOK]
    exact NoReent_OpsOK rest forb hwf L hsub

/-- C1: over a full lowering pass (any successful sequence of allocator
operations from the initial state, with the resolver assigning def
indices injectively and never handing an item the crate's def index,
no re-entrant `with_hir_id_owner`, and fewer allocations than the `u32`
counter space), the final `node_id_to_hir_id` table maps distinct
non-sentinel source node ids to pairwise distinct `(owner, local_id)`
canonical ids: no aliasing. -/
theorem C1_no_aliasing {d : Nat → Option Nat} (hd : Injd d) (hd0 : Posd d)
    {ops : List Op} {s' : LowerState}
    (hwf : NoReent ops [] = true)
    (hbud : allocCount ops < HIR_ID_COUNTER_LOCKED)
    (hrun : runOps d ops initState = some s') :
    ∀ i j (hi : i < s'.node_id_to_hir_id.length) (hj : j < s'.node_id_to_hir_id.length),
      i ≠ j → s'.node_id_to_hir_id[i] ≠ DUMMY_HIR_ID →
      s'.node_id_to_hir_id[j] ≠ DUMMY_HIR_ID →
      s'.node_id_to_hir_id[i] ≠ s'.node_id_to_hir_id[j] := by
  have hOK : OpsOK ops (fun x =>
      initState.item_local_id_counters x = some HIR_ID_COUNTER_LOCKED) := by
    refine NoReent_OpsOK ops [] hwf _ ?_
    intro x hx
    simp [initState] at hx
  obtain ⟨hinv', -, -, -⟩ :=
    runOps_inv hd hd0 ops initState s' 0 (Inv_initState d) CtrBound_initState
      (by omega) hOK hrun
  exact hinv'.inj

/-- Concrete resolver for the witness: def index `o + 1`. -/
def dWit : Nat → Option Nat := fun o => some (o + 1)

/-- Concrete operation list for the witness: a plain node, an item
counter allocation, a nested owner scope with two allocations, another
plain node, and a with-owner allocation. -/
def opsWit : List Op :=
  [.lowerNode 0, .allocCounter 3, .withOwner 3 [.lowerNode 4, .lowerNode 5],
   .lowerNode 1, .lowerNodeWithOwner 6 3]

/-- The state `opsWit` reaches from the initial state. -/
def outStateWit : LowerState := (runOps dWit opsWit initState).getD initState

theorem C1_no_aliasing_witness :
    NoReent opsWit [] = true ∧ allocCount opsWit < HIR_ID_COUNTER_LOCKED ∧
    (∀ i j (hi : i < outStateWit.node_id_to_hir_id.length)
      (hj : j < outStateWit.node_id_to_hir_id.length),
      i ≠ j → outStateWit.node_id_to_hir_id[i] ≠ DUMMY_HIR_ID →
      outStateWit.node_id_to_hir_id[j] ≠ DUMMY_HIR_ID →
      outStateWit.node_id_to_hir_id[i] ≠ outStateWit.node_id_to_hir_id[j]) := by
  have hrun : runOps dWit opsWit initState = some outStateWit := by
    simp [outStateWit, opsWit, dWit, runOps, lower_node_id, lower_node_id_with_owner,
      allocate_hir_id_counter, lower_node_id_generic, resizeTable, mapInsert, initState,
      DUMMY_NODE_ID, DUMMY_HIR_ID, HIR_ID_COUNTER_LOCKED]
  have hwf : NoReent opsWit [] = true := by
    simp [NoReent, opsWit]
  have hbud : allocCount opsWit < HIR_ID_COUNTER_LOCKED := by
    simp [allocCount, opsWit, HIR_ID_COUNTER_LOCKED]
  refine ⟨hwf, hbud, ?_⟩
  exact C1_no_aliasing
    (fun a b x h1 h2 => by
      simp [dWit] at h1 h2
      omega)
    (fun o x h => by
      simp [dWit] at h
      omega)
    hwf hbud hrun

theorem resizeTable_of_le {tbl : List HirId} {n : Nat} (h : n ≤ tbl.length) :
    resizeTable tbl n = tbl := by
  unfold resizeTable
  rw [if_neg]
  omega

/-- C2: the id mapping is idempotent.  If `lower_node_id` returns
`(r, s')`, then calling it again on `s'` with the same input returns the
same `(r, s')`: the stored value is handed back and neither the table nor
any counter changes.  Hypothesis: the canonical id returned is not the
reserved sentinel (counters stay below the `u32` sentinel during a pass),
or the input is the sentinel id. -/
theorem C2_lower_node_id_idempotent {s s' : LowerState} {x : Nat} {r : LoweredNodeId}
    (hrun : lower_node_id s x = some (r, s'))
    (hnd : r.hir_id ≠ DUMMY_HIR_ID ∨ x = DUMMY_NODE_ID) :
    lower_node_id s' x = some (r, s') := by
  unfold lower_node_id lower_node_id_generic at hrun ⊢
  by_cases hdum : x = DUMMY_NODE_ID
  · rw [if_pos hdum] at hrun ⊢
    have h1 := Option.some.inj hrun
    obtain ⟨rfl, rfl⟩ : (⟨DUMMY_NODE_ID, DUMMY_HIR_ID⟩ : LoweredNodeId) = r ∧ s = s' :=
      ⟨congrArg Prod.fst h1, congrArg Prod.snd h1⟩
    rfl
  · rw [if_neg hdum] at hrun ⊢
    simp only at hrun ⊢
    set tbl := resizeTable s.node_id_to_hir_id (x + 1) with htbl
    have hlen : x < tbl.length := by rw [htbl, length_resizeTable]; omega
    by_cases hcached : tbl.getD x DUMMY_HIR_ID = DUMMY_HIR_ID
    · rw [if_pos hcached] at hrun
      cases hown : s.current_hir_id_owner with
      | nil => rw [hown] at hrun; exact absurd hrun (by simp)
      | cons top rest =>
        obtain ⟨δ, c⟩ := top
        rw [hown] at hrun
        simp only at hrun
        have h1 := Option.some.inj hrun
        obtain ⟨hr, rfl⟩ : (⟨x, ⟨δ, c⟩⟩ : LoweredNodeId) = r ∧
            ({ s with
               node_id_to_hir_id := tbl.set x ⟨δ, c⟩
               current_hir_id_owner := (δ, c + 1) :: rest } : LowerState) = s' :=
          ⟨congrArg Prod.fst h1, congrArg Prod.snd h1⟩
        have hndv : (⟨δ, c⟩ : HirId) ≠ DUMMY_HIR_ID := by
          rcases hnd with hnd | hnd
          · rw [← hr] at hnd
            exact hnd
          · exact absurd hnd hdum
        have hres : resizeTable (tbl.set x ⟨δ, c⟩) (x + 1) = tbl.set x ⟨δ, c⟩ :=
          resizeTable_of_le (by rw [List.length_set]; omega)
        have hget : (tbl.set x ⟨δ, c⟩).getD x DUMMY_HIR_ID = ⟨δ, c⟩ := by
          rw [List.getD_eq_getElem _ _ (by rw [List.length_set]; exact hlen)]
          exact List.getElem_set_self (by rw [List.length_set]; exact hlen)
        simp only [hres, hget, if_neg hndv]
        rw [← hr]
    · rw [if_neg hcached] at hrun
      have h1 := Option.some.inj hrun
      obtain ⟨hr, rfl⟩ : (⟨x, tbl.getD x DUMMY_HIR_ID⟩ : LoweredNodeId) = r ∧
          ({ s with node_id_to_hir_id := tbl } : LowerState) = s' :=
        ⟨congrArg Prod.fst h1, congrArg Prod.snd h1⟩
      have hres : resizeTable tbl (x + 1) = tbl :=
        resizeTable_of_le (by omega)
      simp only [hres, if_neg hcached]
      rw [← hr]

/-- Second state after mapping node 3 from the initial state, for the C2
witness. -/
def stateWit2 : LowerState :=
  ((lower_node_id initState 3).map (·.2)).getD initState

theorem C2_lower_node_id_idempotent_witness :
    lower_node_id stateWit2 3 =
      some (⟨3, ⟨CRATE_DEF_INDEX, 0⟩⟩, stateWit2) := by
  have hrun : lower_node_id initState 3 = some (⟨3, ⟨CRATE_DEF_INDEX, 0⟩⟩, stateWit2) := by
    simp [stateWit2, lower_node_id, lower_node_id_generic, initState, resizeTable,
      DUMMY_NODE_ID, DUMMY_HIR_ID, CRATE_DEF_INDEX]
  exact C2_lower_node_id_idempotent hrun
    (Or.inl (by simp [DUMMY_HIR_ID, CRATE_DEF_INDEX]))

/-- C7: mapping the sentinel source id returns the sentinel canonical id
and leaves the allocator state completely unchanged — the table is
neither grown nor written and no counter advances — whatever the current
state, and through every entry point (`lower_node_id_generic` with any
allocator, `lower_node_id`, `lower_node_id_with_owner`). -/
theorem C7_sentinel_uncached (s : LowerState)
    (alloc : LowerState → Option (HirId × LowerState)) :
    lower_node_id_generic s DUMMY_NODE_ID alloc =
      some (⟨DUMMY_NODE_ID, DUMMY_HIR_ID⟩, s) ∧
    lower_node_id s DUMMY_NODE_ID = some (⟨DUMMY_NODE_ID, DUMMY_HIR_ID⟩, s) ∧
    (∀ (d : Nat → Option Nat) (o : Nat),
      lower_node_id_with_owner d s DUMMY_NODE_ID o =
        some (⟨DUMMY_NODE_ID, DUMMY_HIR_ID⟩, s)) := by
  refine ⟨?_, ?_, fun d o => ?_⟩ <;>
    simp [lower_node_id_generic, lower_node_id, lower_node_id_with_owner]

end IdAlloc

namespace Desugar

/-- `syntax::ast::RangeLimits`. -/
inductive RangeLimits where
  | HalfOpen
  | Closed
deriving DecidableEq, Repr

/-- Reduced surface AST: exactly the `ExprKind` arms the desugaring /
scope-context claims are about.  Nodes that feed an id into scope
bookkeeping (`e.id` of `while`/`loop`/`break`/`continue`, the block id of
`catch`) carry it; `lit` stands for any already-canonical leaf. -/
inductive Expr where
  | lit (n : Nat)
  | whileE (id : Nat) (cond : Expr) (body : Expr) (label : Option Nat)
  | loopE (id : Nat) (body : Expr) (label : Option Nat)
  | catchE (blockId : Nat) (body : Expr)
  | tryE (sub : Expr)
  | breakE (id : Nat) (label : Option Nat) (val : Option Expr)
  | continueE (id : Nat) (label : Option Nat)
  | rangeE (e1 : Option Expr) (e2 : Option Expr) (lims : RangeLimits)
deriving Repr

/-- `hir::LoopIdError`. -/
inductive LoopIdError where
  | UnresolvedLabel
  | OutsideLoopScope
  | UnlabeledCfInWhileCondition
deriving DecidableEq, Repr

/-- `Result<NodeId, LoopIdError>` (`hir::LoopIdResult`). -/
inductive LoopIdResult where
  | ok (id : Nat)
  | err (e : LoopIdError)
deriving DecidableEq, Repr

/-- `hir::ScopeTarget`: loop destination or catch-block destination. -/
inductive ScopeTarget where
  | loopT (r : LoopIdResult)
  | blockT (id : Nat)
deriving DecidableEq, Repr

/-- `hir::Destination`. -/
structure Destination where
  ident : Option Nat
  target_id : ScopeTarget
deriving DecidableEq, Repr

/-- The only synthesized attribute the claims mention:
`#[allow(unreachable_code)]`. -/
inductive Attr where
  | allowUnreachableCode
deriving DecidableEq, Repr

/-- `hir::MatchSource` (the tag the `?` desugaring uses). -/
inductive MatchSource where
  | TryDesugar
deriving DecidableEq, Repr

/-- Patterns the `?` desugaring synthesizes: an identifier binding and
the std `Ok`/`Err` enum patterns (`pat_ident`, `pat_ok`, `pat_err`). -/
inductive Pat where
  | pid (name : String)
  | pok (inner : Pat)
  | perr (inner : Pat)
deriving DecidableEq, Repr

/-- Canonical-tree expressions produced by the modelled lowering arms.
Expressions built through `self.expr(..)` / `expr_ident_with_attrs`
carry their attribute list.  An arm is `(pats, body)`. -/
inductive Hir where
  | lit (n : Nat)
  | whileH (cond : Hir) (body : Hir) (label : Option Nat)
  | loopH (body : Hir) (label : Option Nat)
  | blockH (body : Hir) (targeted_by_break : Bool)
  | matchH (discr : Hir) (arms : List (List Pat × Hir)) (source : MatchSource)
  | breakH (dest : Destination) (val : Option Hir) (attrs : List Attr)
  | againH (dest : Destination)
  | retH (val : Option Hir) (attrs : List Attr)
  | callH (f : Hir) (args : List Hir)
  | pathH (segs : List String)
  | structH (segs : List String) (fields : List (String × Hir))
  | identH (name : String) (attrs : List Attr)
deriving Repr

/-- The scope-context fragment of `LoweringContext`: `catch_scopes`,
`loop_scopes` (head of the list = top of the `Vec`), and the
`is_in_loop_condition` flag. -/
structure LCtx where
  catch_scopes : List Nat
  loop_scopes : List Nat
  is_in_loop_condition : Bool
deriving DecidableEq, Repr

/-- Failure: `span_fatal` (a reported fatal error) or a failed internal
assertion. -/
inductive LErr where
  | fatal (msg : String)
  | broken (msg : String)
deriving DecidableEq, Repr

/-- `with_catch_scope`: push the catch target, run the body, assert
balanced push/pop, pop. -/
def with_catch_scope {α : Type} (catch_id : Nat)
    (f : LCtx → Except LErr (α × LCtx)) (s : LCtx) : Except LErr (α × LCtx) :=
  let len := s.catch_scopes.length
  match f { s with catch_scopes := catch_id :: s.catch_scopes } with
  | .error e => .error e
  | .ok (r, s₂) =>
    if len + 1 = s₂.catch_scopes.length then
      .ok (r, { s₂ with catch_scopes := s₂.catch_scopes.tail })
    else .error (.broken "catch scopes should be added and removed in stack order")

/-- `with_loop_scope`: clear the loop-condition flag, push the loop
target, run the body, assert balanced push/pop, pop, restore the flag. -/
def with_loop_scope {α : Type} (loop_id : Nat)
    (f : LCtx → Except LErr (α × LCtx)) (s : LCtx) : Except LErr (α × LCtx) :=
  let was_in_loop_condition := s.is_in_loop_condition
  let len := s.loop_scopes.length
  match f { s with
      is_in_loop_condition := false
      loop_scopes := loop_id :: s.loop_scopes } with
  | .error e => .error e
  | .ok (r, s₂) =>
    if len + 1 = s₂.loop_scopes.length then
      .ok (r, { s₂ with
        loop_scopes := s₂.loop_scopes.tail
        is_in_loop_condition := was_in_loop_condition })
    else .error (.broken "Loop scopes should be added and removed in stack order")

/-- `with_loop_condition_scope`: set the loop-condition flag for the
duration of the body, restoring the previous value. -/
def with_loop_condition_scope {α : Type}
    (f : LCtx → Except LErr (α × LCtx)) (s : LCtx) : Except LErr (α × LCtx) :=
  let was_in_loop_condition := s.is_in_loop_condition
  match f { s with is_in_loop_condition := true } with
  | .error e => .error e
  | .ok (r, s₂) => .ok (r, { s₂ with is_in_loop_condition := was_in_loop_condition })

/-- `with_new_scopes`: run the body with the loop-condition flag cleared
and fresh empty catch/loop stacks, then restore the caller's originals. -/
def with_new_scopes {α : Type}
    (f : LCtx → Except LErr (α × LCtx)) (s : LCtx) : Except LErr (α × LCtx) :=
  let was_in_loop_condition := s.is_in_loop_condition
  let catch_scopes := s.catch_scopes
  let loop_scopes := s.loop_scopes
  match f { s with
      is_in_loop_condition := false
      catch_scopes := []
      loop_scopes := [] } with
  | .error e => .error e
  | .ok (r, s₂) =>
    .ok (r, { s₂ with
      catch_scopes := catch_scopes
      loop_scopes := loop_scopes
      is_in_loop_condition := was_in_loop_condition })

/-- `lower_loop_destination`.  `reso` is the resolver's
`expect_full_def` restricted to `Def::Label` (`some loop_id` when the
label resolves, `none` otherwise); `lower_node_id` keeps the node-id
component unchanged, so targets are the raw ids. -/
def lower_loop_destination (reso : Nat → Option Nat)
    (destination : Option (Nat × Nat)) (s : LCtx) : Destination :=
  match destination with
  | some (id, label_ident) =>
    match reso id with
    | some loop_id => ⟨some label_ident, .loopT (.ok loop_id)⟩
    | none => ⟨some label_ident, .loopT (.err .UnresolvedLabel)⟩
  | none =>
    match s.loop_scopes.head? with
    | some loop_id => ⟨none, .loopT (.ok loop_id)⟩
    | none => ⟨none, .loopT (.err .OutsideLoopScope)⟩

/-- The relevant arms of `lower_expr`, with the scope helpers inlined so
that the recursion is structural (`lowerExpr_catchE` and friends below
restate each scoped case through the helper itself).  Sub-blocks are
lowered as `lower_block(_, targeted_by_break)`. -/
def lowerExpr (reso : Nat → Option Nat) : Expr → LCtx → Except LErr (Hir × LCtx)
  | .lit n, s => .ok (.lit n, s)
  | .whileE id cond body label, s =>
    let was_in_loop_condition := s.is_in_loop_condition
    let len := s.loop_scopes.length
    let s₁ : LCtx := { s with
      is_in_loop_condition := false
      loop_scopes := id :: s.loop_scopes }
    match lowerExpr reso cond { s₁ with is_in_loop_condition := true } with
    | .error e => .error e
    | .ok (hc, s₂) =>
      match lowerExpr reso body { s₂ with is_in_loop_condition := s₁.is_in_loop_condition } with
      | .error e => .error e
      | .ok (hb, s₄) =>
        if len + 1 = s₄.loop_scopes.length then
          .ok (.whileH hc (.blockH hb false) label,
            { s₄ with
              loop_scopes := s₄.loop_scopes.tail
              is_in_loop_condition := was_in_loop_condition })
        else .error (.broken "Loop scopes should be added and removed in stack order")
  | .loopE id body label, s =>
    let was_in_loop_condition := s.is_in_loop_condition
    let len := s.loop_scopes.length
    match lowerExpr reso body { s with
        is_in_loop_condition := false
        loop_scopes := id :: s.loop_scopes } with
    | .error e => .error e
    | .ok (hb, s₂) =>
      if len + 1 = s₂.loop_scopes.length then
        .ok (.loopH (.blockH hb false) label,
          { s₂ with
            loop_scopes := s₂.loop_scopes.tail
            is_in_loop_condition := was_in_loop_condition })
      else .error (.broken "Loop scopes should be added and removed in stack order")
  | .catchE blockId body, s =>
    let len := s.catch_scopes.length
    match lowerExpr reso body { s with catch_scopes := blockId :: s.catch_scopes } with
    | .error e => .error e
    | .ok (hb, s₂) =>
      if len + 1 = s₂.catch_scopes.length then
        .ok (.blockH hb true, { s₂ with catch_scopes := s₂.catch_scopes.tail })
      else .error (.broken "catch scopes should be added and removed in stack order")
  | .tryE sub, s =>
    match lowerExpr reso sub s with
    | .error e => .error e
    | .ok (hs, s₁) =>
      let discr := Hir.callH (.pathH ["ops", "Try", "into_result"]) [hs]
      let attrs : List Attr := [.allowUnreachableCode]
      let ok_arm := ([Pat.pok (.pid "val")], Hir.identH "val" attrs)
      let err_arm :=
        let from_expr := Hir.callH (.pathH ["convert", "From", "from"]) [.identH "err" []]
        let from_err_expr := Hir.callH (.pathH ["ops", "Try", "from_error"]) [from_expr]
        let catch_scope := s₁.catch_scopes.head?
        let ret_expr := match catch_scope with
          | some catch_node =>
            Hir.breakH ⟨none, .blockT catch_node⟩ (some from_err_expr) attrs
          | none => Hir.retH (some from_err_expr) attrs
        ([Pat.perr (.pid "err")], ret_expr)
      .ok (.matchH discr [err_arm, ok_arm] .TryDesugar, s₁)
  | .breakE id label val, s =>
    let label_result :=
      if s.is_in_loop_condition && label.isNone then
        ⟨label, .loopT (.err .UnlabeledCfInWhileCondition)⟩
      else
        lower_loop_destination reso (label.map (fun l => (id, l))) s
    match val with
    | none => .ok (.breakH label_result none [], s)
    | some v =>
      match lowerExpr reso v s with
      | .error e => .error e
      | .ok (hv, s₂) => .ok (.breakH label_result (some hv) [], s₂)
  | .continueE id label, s =>
    .ok (.againH
      (if s.is_in_loop_condition && label.isNone then
        ⟨label, .loopT (.err .UnlabeledCfInWhileCondition)⟩
      else
        lower_loop_destination reso (label.map (fun l => (id, l))) s), s)
  | .rangeE e1 e2 lims, s =>
    let path? : Except LErr String := match e1, e2, lims with
      | none, none, .HalfOpen => .ok "RangeFull"
      | some _, none, .HalfOpen => .ok "RangeFrom"
      | none, some _, .HalfOpen => .ok "RangeTo"
      | some _, some _, .HalfOpen => .ok "Range"
      | none, some _, .Closed => .ok "RangeToInclusive"
      | some _, some _, .Closed => .ok "RangeInclusive"
      | _, none, .Closed => .error (.fatal "inclusive range with no end")
    match path? with
    | .error e => .error e
    | .ok path =>
      let start? : Except LErr (List (String × Hir) × LCtx) := match e1 with
        | none => .ok ([], s)
        | some x =>
          match lowerExpr reso x s with
          | .error e => .error e
          | .ok (h1, s₁) => .ok ([("start", h1)], s₁)
      match start? with
      | .error e => .error e
      | .ok (fs1, s₁) =>
        let end? : Except LErr (List (String × Hir) × LCtx) := match e2 with
          | none => .ok ([], s₁)
          | some y =>
            match lowerExpr reso y s₁ with
            | .error e => .error e
            | .ok (h2, s₂) => .ok ([("end", h2)], s₂)
        match end? with
        | .error e => .error e
        | .ok (fs2, s₂) =>
          let fields := fs1 ++ fs2
          let is_unit := fields.isEmpty
          let struct_path := ["ops", path]
          .ok (if is_unit then .pathH struct_path else .structH struct_path fields, s₂)

/-- The `catchE` case of `lowerExpr` is `with_catch_scope` around the
block lowering, as in the source. -/
theorem lowerExpr_catchE (reso : Nat → Option Nat) (blockId : Nat) (body : Expr)
    (s : LCtx) :
    lowerExpr reso (.catchE blockId body) s =
      with_catch_scope blockId (fun t =>
        match lowerExpr reso body t with
        | .error e => .error e
        | .ok (hb, t') => .ok (Hir.blockH hb true, t')) s := by
  simp only [lowerExpr, with_catch_scope]
  cases lowerExpr reso body { s with catch_scopes := blockId :: s.catch_scopes } with
  | error e => rfl
  | ok r =>
    obtain ⟨hb, s₂⟩ := r
    simp only

/-- The `loopE` case of `lowerExpr` is `with_loop_scope` around the block
lowering, as in the source. -/
theorem lowerExpr_loopE (reso : Nat → Option Nat) (id : Nat) (body : Expr)
    (label : Option Nat) (s : LCtx) :
    lowerExpr reso (.loopE id body label) s =
      with_loop_scope id (fun t =>
        match lowerExpr reso body t with
        | .error e => .error e
        | .ok (hb, t') => .ok (Hir.loopH (.blockH hb false) label, t')) s := by
  simp only [lowerExpr, with_loop_scope]
  cases lowerExpr reso body { s with
      is_in_loop_condition := false
      loop_scopes := id :: s.loop_scopes } with
  | error e => rfl
  | ok r =>
    obtain ⟨hb, s₂⟩ := r
    simp only

/-- The `whileE` case of `lowerExpr` is `with_loop_scope` around a
condition lowered under `with_loop_condition_scope` followed by the body,
as in the source. -/
theorem lowerExpr_whileE (reso : Nat → Option Nat) (id : Nat) (cond body : Expr)
    (label : Option Nat) (s : LCtx) :
    lowerExpr reso (.whileE id cond body label) s =
      with_loop_scope id (fun t =>
        match with_loop_condition_scope (lowerExpr reso cond) t with
        | .error e => .error e
        | .ok (hc, t₂) =>
          match lowerExpr reso body t₂ with
          | .error e => .error e
          | .ok (hb, t₃) => .ok (Hir.whileH hc (.blockH hb false) label, t₃)) s := by
  simp only [lowerExpr, with_loop_scope, with_loop_condition_scope]
  cases lowerExpr reso cond { s with
      is_in_loop_condition := true
      loop_scopes := id :: s.loop_scopes } with
  | error e => rfl
  | ok r =>
    obtain ⟨hc, s₂⟩ := r
    simp only
    cases lowerExpr reso body { s₂ with is_in_loop_condition := false } with
    | error e => rfl
    | ok r₂ =>
      obtain ⟨hb, s₄⟩ := r₂
      simp only

/-- A successful `lowerExpr` call restores the scope context exactly:
catch stack, loop stack and loop-condition flag all return to their
values at entry. -/
theorem lowerExpr_state_eq (reso : Nat → Option Nat) :
    ∀ (e : Expr) (s : LCtx) (h : Hir) (s' : LCtx),
      lowerExpr reso e s = .ok (h, s') → s' = s
  | .lit n, s, h, s', hrun => by
    simp only [lowerExpr] at hrun
    have h2 := congrArg Prod.snd (Except.ok.inj hrun)
    first
      | exact h2.symm
      | exact h2
  | .whileE id cond body label, s, h, s', hrun => by
    simp only [lowerExpr] at hrun
    cases h1 : lowerExpr reso cond { s with
        is_in_loop_condition := true
        loop_scopes := id :: s.loop_scopes } with
    | error e => rw [h1] at hrun; exact absurd hrun (by simp)
    | ok r =>
      obtain ⟨hc, s₂⟩ := r
      rw [h1] at hrun
      simp only at hrun
      have hs₂ := lowerExpr_state_eq reso cond _ _ _ h1
      cases h2 : lowerExpr reso body { s₂ with is_in_loop_condition := false } with
      | error e => rw [h2] at hrun; exact absurd hrun (by simp)
      | ok r₂ =>
        obtain ⟨hb, s₄⟩ := r₂
        rw [h2] at hrun
        simp only at hrun
        have hs₄ := lowerExpr_state_eq reso body _ _ _ h2
        rw [hs₂] at hs₄
        split at hrun
        · have h3 := congrArg Prod.snd (Except.ok.inj hrun)
          have hs' : s' = { s₄ with
              loop_scopes := s₄.loop_scopes.tail
              is_in_loop_condition := s.is_in_loop_condition } := by
            first
              | exact h3.symm
              | exact h3
          rw [hs', hs₄]
          simp
        · exact absurd hrun (by simp)
  | .loopE id body label, s, h, s', hrun => by
    simp only [lowerExpr] at hrun
    cases h1 : lowerExpr reso body { s with
        is_in_loop_condition := false
        loop_scopes := id :: s.loop_scopes } with
    | error e => rw [h1] at hrun; exact absurd hrun (by simp)
    | ok r =>
      obtain ⟨hb, s₂⟩ := r
      rw [h1] at hrun
      simp only at hrun
      have hs₂ := lowerExpr_state_eq reso body _ _ _ h1
      split at hrun
      · have h3 := congrArg Prod.snd (Except.ok.inj hrun)
        have hs' : s' = { s₂ with
            loop_scopes := s₂.loop_scopes.tail
            is_in_loop_condition := s.is_in_loop_condition } := by
          first
            | exact h3.symm
            | exact h3
        rw [hs', hs₂]
        simp
      · exact absurd hrun (by simp)
  | .catchE blockId body, s, h, s', hrun => by
    simp only [lowerExpr] at hrun
    cases h1 : lowerExpr reso body { s with catch_scopes := blockId :: s.catch_scopes } with
    | error e => rw [h1] at hrun; exact absurd hrun (by simp)
    | ok r =>
      obtain ⟨hb, s₂⟩ := r
      rw [h1] at hrun
      simp only at hrun
      have hs₂ := lowerExpr_state_eq reso body _ _ _ h1
      split at hrun
      · have h3 := congrArg Prod.snd (Except.ok.inj hrun)
        have hs' : s' = { s₂ with catch_scopes := s₂.catch_scopes.tail } := by
          first
            | exact h3.symm
            | exact h3
        rw [hs', hs₂]
        simp
      · exact absurd hrun (by simp)
  | .tryE sub, s, h, s', hrun => by
    simp only [lowerExpr] at hrun
    cases h1 : lowerExpr reso sub s with
    | error e => rw [h1] at hrun; exact absurd hrun (by simp)
    | ok r =>
      obtain ⟨hs, s₁⟩ := r
      rw [h1] at hrun
      simp only at hrun
      have hs₁ := lowerExpr_state_eq reso sub _ _ _ h1
      have h3 := congrArg Prod.snd (Except.ok.inj hrun)
      rw [← hs₁]
      first
        | exact h3.symm
        | exact h3
  | .breakE id label val, s, h, s', hrun => by
    cases val with
    | none =>
      simp only [lowerExpr] at hrun
      have h3 := congrArg Prod.snd (Except.ok.inj hrun)
      first
        | exact h3.symm
        | exact h3
    | some v =>
      simp only [lowerExpr] at hrun
      cases h1 : lowerExpr reso v s with
      | error e => rw [h1] at hrun; exact absurd hrun (by simp)
      | ok r =>
        obtain ⟨hv, s₂⟩ := r
        rw [h1] at hrun
        try simp only at hrun
        have hs₂ := lowerExpr_state_eq reso v _ _ _ h1
        have h3 := congrArg Prod.snd (Except.ok.inj hrun)
        rw [← hs₂]
        first
          | exact h3.symm
          | exact h3
  | .continueE id label, s, h, s', hrun => by
    simp only [lowerExpr] at hrun
    have h3 := congrArg Prod.snd (Except.ok.inj hrun)
    first
      | exact h3.symm
      | exact h3
  | .rangeE e1 e2 lims, s, h, s', hrun => by
    cases e1 with
    | none =>
      cases e2 with
      | none =>
        cases lims with
        | HalfOpen =>
          simp only [lowerExpr] at hrun
          have h3 := congrArg Prod.snd (Except.ok.inj hrun)
          first
            | exact h3.symm
            | exact h3
        | Closed =>
          simp only [lowerExpr] at hrun
          exact absurd hrun (by simp)
      | some y =>
        cases lims with
        | HalfOpen =>
          simp only [lowerExpr] at hrun
          cases h2 : lowerExpr reso y s with
          | error e => rw [h2] at hrun; exact absurd hrun (by simp)
          | ok r₂ =>
            obtain ⟨hy, s₂⟩ := r₂
            rw [h2] at hrun
            simp only at hrun
            have hs₂ := lowerExpr_state_eq reso y _ _ _ h2
            have h3 := congrArg Prod.snd (Except.ok.inj hrun)
            rw [← hs₂]
            first
              | exact h3.symm
              | exact h3
        | Closed =>
          simp only [lowerExpr] at hrun
          cases h2 : lowerExpr reso y s with
          | error e => rw [h2] at hrun; exact absurd hrun (by simp)
          | ok r₂ =>
            obtain ⟨hy, s₂⟩ := r₂
            rw [h2] at hrun
            simp only at hrun
            have hs₂ := lowerExpr_state_eq reso y _ _ _ h2
            have h3 := congrArg Prod.snd (Except.ok.inj hrun)
            rw [← hs₂]
            first
              | exact h3.symm
              | exact h3
    | some x =>
      cases e2 with
      | none =>
        cases lims with
        | HalfOpen =>
          simp only [lowerExpr] at hrun
          cases h1 : lowerExpr reso x s with
          | error e => rw [h1] at hrun; exact absurd hrun (by simp)
          | ok r₁ =>
            obtain ⟨hx, s₁⟩ := r₁
            rw [h1] at hrun
            simp only at hrun
            have hsx := lowerExpr_state_eq reso x _ _ _ h1
            have h3 := congrArg Prod.snd (Except.ok.inj hrun)
            rw [← hsx]
            first
              | exact h3.symm
              | exact h3
        | Closed =>
          simp only [lowerExpr] at hrun
          exact absurd hrun (by simp)
      | some y =>
        cases lims with
        | HalfOpen =>
          simp only [lowerExpr] at hrun
          cases h1 : lowerExpr reso x s with
          | error e => rw [h1] at hrun; exact absurd hrun (by simp)
          | ok r₁ =>
            obtain ⟨hx, s₁⟩ := r₁
            rw [h1] at hrun
            simp only at hrun
            cases h2 : lowerExpr reso y s₁ with
            | error e => rw [h2] at hrun; exact absurd hrun (by simp)
            | ok r₂ =>
              obtain ⟨hy, s₂⟩ := r₂
              rw [h2] at hrun
              simp only at hrun
              have hsx := lowerExpr_state_eq reso x _ _ _ h1
              have hsy := lowerExpr_state_eq reso y _ _ _ h2
              have h3 := congrArg Prod.snd (Except.ok.inj hrun)
              rw [← hsx, ← hsy]
              first
                | exact h3.symm
                | exact h3
        | Closed =>
          simp only [lowerExpr] at hrun
          cases h1 : lowerExpr reso x s with
          | error e => rw [h1] at hrun; exact absurd hrun (by simp)
          | ok r₁ =>
            obtain ⟨hx, s₁⟩ := r₁
            rw [h1] at hrun
            simp only at hrun
            cases h2 : lowerExpr reso y s₁ with
            | error e => rw [h2] at hrun; exact absurd hrun (by simp)
            | ok r₂ =>
              obtain ⟨hy, s₂⟩ := r₂
              rw [h2] at hrun
              simp only at hrun
              have hsx := lowerExpr_state_eq reso x _ _ _ h1
              have hsy := lowerExpr_state_eq reso y _ _ _ h2
              have h3 := congrArg Prod.snd (Except.ok.inj hrun)
              rw [← hsx, ← hsy]
              first
                | exact h3.symm
                | exact h3

/-- `Try::from_error(From::from(err))` — the argument of the error-arm
exit in the `?` desugaring. -/
def tryFromErrExpr : Hir :=
  .callH (.pathH ["ops", "Try", "from_error"])
    [.callH (.pathH ["convert", "From", "from"]) [.identH "err" []]]

/-- The `Ok` arm of the `?` desugaring:
`Ok(val) => #[allow(unreachable_code)] val`. -/
def tryOkArm : List Pat × Hir :=
  ([.pok (.pid "val")], .identH "val" [.allowUnreachableCode])

/-- The `Err` arm of the `?` desugaring, as a function of the catch-scope
stack at the `?` expression: a `break` to the innermost catch target when
one exists, else a function-level `return`. -/
def tryErrArm (catch_scopes : List Nat) : List Pat × Hir :=
  ([.perr (.pid "err")],
    match catch_scopes.head? with
    | some catch_node =>
      .breakH ⟨none, .blockT catch_node⟩ (some tryFromErrExpr) [.allowUnreachableCode]
    | none => .retH (some tryFromErrExpr) [.allowUnreachableCode])

/-- Shape of the `?` desugaring output in terms of the state reached after
lowering the sub-expression. -/
theorem lowerExpr_tryE {reso : Nat → Option Nat} {sub : Expr} {s : LCtx}
    {hs : Hir} {s₁ : LCtx} (h1 : lowerExpr reso sub s = .ok (hs, s₁)) :
    lowerExpr reso (.tryE sub) s =
      .ok (.matchH (.callH (.pathH ["ops", "Try", "into_result"]) [hs])
        [tryErrArm s₁.catch_scopes, tryOkArm] .TryDesugar, s₁) := by
  simp only [lowerExpr, h1, tryErrArm, tryOkArm, tryFromErrExpr]

/-- C8: every scoped-acquisition helper restores the scope state it
changed.  For a body that itself restores the context (as all lowering
does), `with_catch_scope` and `with_loop_scope` return with the catch
stack, loop stack and loop-condition flag exactly as before the call; and
`with_new_scopes` runs its body on empty loop/catch stacks and restores
the caller's original stacks unconditionally. -/
theorem C8_scoped_helpers_restore {α : Type}
    (f : LCtx → Except LErr (α × LCtx))
    (hf : ∀ t r t', f t = .ok (r, t') → t' = t) :
    (∀ cid s r s', with_catch_scope cid f s = .ok (r, s') →
      s'.catch_scopes = s.catch_scopes ∧ s'.loop_scopes = s.loop_scopes ∧
      s'.is_in_loop_condition = s.is_in_loop_condition) ∧
    (∀ lid s r s', with_loop_scope lid f s = .ok (r, s') →
      s'.loop_scopes = s.loop_scopes ∧ s'.catch_scopes = s.catch_scopes ∧
      s'.is_in_loop_condition = s.is_in_loop_condition) ∧
    (∀ s, with_new_scopes f s =
      (f { s with
        is_in_loop_condition := false
        catch_scopes := []
        loop_scopes := [] }).map (fun rt =>
          (rt.1, { rt.2 with
            catch_scopes := s.catch_scopes
            loop_scopes := s.loop_scopes
            is_in_loop_condition := s.is_in_loop_condition }))) := by
  refine ⟨?_, ?_, ?_⟩
  · intro cid s r s' hrun
    unfold with_catch_scope at hrun
    cases h1 : f { s with catch_scopes := cid :: s.catch_scopes } with
    | error e => rw [h1] at hrun; exact absurd hrun (by simp)
    | ok rt =>
      obtain ⟨r₂, s₂⟩ := rt
      rw [h1] at hrun
      simp only at hrun
      have hs₂ := hf _ _ _ h1
      rw [hs₂] at hrun
      simp only [List.length_cons, List.tail_cons, if_true] at hrun
      have h3 := congrArg Prod.snd (Except.ok.inj hrun)
      have hs' : s' = { s with catch_scopes := s.catch_scopes } := by
        first
          | exact h3.symm
          | exact h3
      rw [hs']
      exact ⟨rfl, rfl, rfl⟩
  · intro lid s r s' hrun
    unfold with_loop_scope at hrun
    cases h1 : f { s with
        is_in_loop_condition := false
        loop_scopes := lid :: s.loop_scopes } with
    | error e => rw [h1] at hrun; exact absurd hrun (by simp)
    | ok rt =>
      obtain ⟨r₂, s₂⟩ := rt
      rw [h1] at hrun
      simp only at hrun
      have hs₂ := hf _ _ _ h1
      rw [hs₂] at hrun
      simp only [List.length_cons, List.tail_cons, if_true] at hrun
      have h3 := congrArg Prod.snd (Except.ok.inj hrun)
      have hs' : s' = { s with
          loop_scopes := s.loop_scopes
          is_in_loop_condition := s.is_in_loop_condition } := by
        first
          | exact h3.symm
          | exact h3
      rw [hs']
      exact ⟨rfl, rfl, rfl⟩
  · intro s
    unfold with_new_scopes
    cases f { s with
        is_in_loop_condition := false
        catch_scopes := []
        loop_scopes := [] } with
    | error e => rfl
    | ok rt => rfl

theorem C8_scoped_helpers_restore_witness :
    (with_catch_scope 7 (fun t => .ok (0, t)) ⟨[1], [2], true⟩ =
      .ok ((0 : Nat), (⟨[1], [2], true⟩ : LCtx))) ∧
    ((⟨[1], [2], true⟩ : LCtx).catch_scopes = (⟨[1], [2], true⟩ : LCtx).catch_scopes ∧
      (⟨[1], [2], true⟩ : LCtx).loop_scopes = (⟨[1], [2], true⟩ : LCtx).loop_scopes ∧
      (⟨[1], [2], true⟩ : LCtx).is_in_loop_condition =
        (⟨[1], [2], true⟩ : LCtx).is_in_loop_condition) := by
  have h := (C8_scoped_helpers_restore (α := Nat) (fun t => .ok (0, t))
    (fun t r t' ht => by
      have := congrArg Prod.snd (Except.ok.inj ht)
      first
        | exact this.symm
        | exact this)).1 7 ⟨[1], [2], true⟩ 0 ⟨[1], [2], true⟩
      (by simp [with_catch_scope])
  exact ⟨by simp [with_catch_scope], h⟩

/-- C3: the error arm of the `?` desugaring picks its exit from the
catch-scope stack: with a non-empty stack it is a `break` targeting the
innermost catch scope's id; with an empty stack it is a function-level
`return`; and `EXPR?` lowered directly inside `catch { ... }` breaks to
that catch block's id. -/
theorem C3_try_exit_by_catch_stack :
    (∀ (reso : Nat → Option Nat) (sub : Expr) (s : LCtx) (hs : Hir) (s₁ : LCtx)
        (c : Nat) (rest : List Nat),
      lowerExpr reso sub s = .ok (hs, s₁) →
      s.catch_scopes = c :: rest →
      lowerExpr reso (.tryE sub) s =
        .ok (.matchH (.callH (.pathH ["ops", "Try", "into_result"]) [hs])
          [([.perr (.pid "err")],
            .breakH ⟨none, .blockT c⟩ (some tryFromErrExpr) [.allowUnreachableCode]),
           tryOkArm] .TryDesugar, s₁)) ∧
    (∀ (reso : Nat → Option Nat) (sub : Expr) (s : LCtx) (hs : Hir) (s₁ : LCtx),
      lowerExpr reso sub s = .ok (hs, s₁) →
      s.catch_scopes = [] →
      lowerExpr reso (.tryE sub) s =
        .ok (.matchH (.callH (.pathH ["ops", "Try", "into_result"]) [hs])
          [([.perr (.pid "err")],
            .retH (some tryFromErrExpr) [.allowUnreachableCode]),
           tryOkArm] .TryDesugar, s₁)) ∧
    (∀ (reso : Nat → Option Nat) (sub : Expr) (s : LCtx) (hs : Hir) (s₁ : LCtx)
        (bid : Nat),
      lowerExpr reso sub { s with catch_scopes := bid :: s.catch_scopes } = .ok (hs, s₁) →
      lowerExpr reso (.catchE bid (.tryE sub)) s =
        .ok (.blockH
          (.matchH (.callH (.pathH ["ops", "Try", "into_result"]) [hs])
            [([.perr (.pid "err")],
              .breakH ⟨none, .blockT bid⟩ (some tryFromErrExpr) [.allowUnreachableCode]),
             tryOkArm] .TryDesugar) true, s)) := by
  refine ⟨?_, ?_, ?_⟩
  · intro reso sub s hs s₁ c rest h1 hcs
    have hs₁ := lowerExpr_state_eq reso sub _ _ _ h1
    have := lowerExpr_tryE h1
    rw [this, tryErrArm, hs₁, hcs]
    simp
  · intro reso sub s hs s₁ h1 hcs
    have hs₁ := lowerExpr_state_eq reso sub _ _ _ h1
    have := lowerExpr_tryE h1
    rw [this, tryErrArm, hs₁, hcs]
    simp
  · intro reso sub s hs s₁ bid h1
    have hs₁ := lowerExpr_state_eq reso sub _ _ _ h1
    simp only [lowerExpr, h1, tryErrArm, tryOkArm, tryFromErrExpr, hs₁]
    simp

theorem C3_try_exit_by_catch_stack_witness :
    (lowerExpr (fun _ => none) (.tryE (.lit 0)) ⟨[9], [], false⟩ =
      .ok (.matchH (.callH (.pathH ["ops", "Try", "into_result"]) [.lit 0])
        [([.perr (.pid "err")],
          .breakH ⟨none, .blockT 9⟩ (some tryFromErrExpr) [.allowUnreachableCode]),
         tryOkArm] .TryDesugar, ⟨[9], [], false⟩)) ∧
    (lowerExpr (fun _ => none) (.tryE (.lit 0)) ⟨[], [], false⟩ =
      .ok (.matchH (.callH (.pathH ["ops", "Try", "into_result"]) [.lit 0])
        [([.perr (.pid "err")],
          .retH (some tryFromErrExpr) [.allowUnreachableCode]),
         tryOkArm] .TryDesugar, ⟨[], [], false⟩)) ∧
    (lowerExpr (fun _ => none) (.catchE 9 (.tryE (.lit 0))) ⟨[], [], false⟩ =
      .ok (.blockH
        (.matchH (.callH (.pathH ["ops", "Try", "into_result"]) [.lit 0])
          [([.perr (.pid "err")],
            .breakH ⟨none, .blockT 9⟩ (some tryFromErrExpr) [.allowUnreachableCode]),
           tryOkArm] .TryDesugar) true, ⟨[], [], false⟩)) := by
  refine ⟨?_, ?_, ?_⟩
  · exact C3_try_exit_by_catch_stack.1 (fun _ => none) (.lit 0) ⟨[9], [], false⟩
      (.lit 0) ⟨[9], [], false⟩ 9 [] (by simp [lowerExpr]) rfl
  · exact C3_try_exit_by_catch_stack.2.1 (fun _ => none) (.lit 0) ⟨[], [], false⟩
      (.lit 0) ⟨[], [], false⟩ (by simp [lowerExpr]) rfl
  · exact C3_try_exit_by_catch_stack.2.2 (fun _ => none) (.lit 0) ⟨[], [], false⟩
      (.lit 0) ⟨[9], [], false⟩ 9 (by simp [lowerExpr])

/-- C4 as written is false: the lowering emits the `Err` arm first and
the `Ok` arm second (`hir_vec![err_arm, ok_arm]`), not `Ok` before `Err`
as the spec's table order suggests.  Concretely, lowering `(lit 0)?` in
an empty context yields the arm list `[err, ok]`, which differs from
`[ok, err]`. -/
theorem C4_try_arms_order_counterexample :
    lowerExpr (fun _ => none) (.tryE (.lit 0)) ⟨[], [], false⟩ =
      .ok (.matchH (.callH (.pathH ["ops", "Try", "into_result"]) [.lit 0])
        [tryErrArm [], tryOkArm] .TryDesugar, ⟨[], [], false⟩) ∧
    [tryErrArm [], tryOkArm] ≠ [tryOkArm, tryErrArm []] := by
  constructor
  · exact (@lowerExpr_tryE (fun _ => none) (.lit 0)
      ⟨[], [], false⟩ (.lit 0) ⟨[], [], false⟩
      (by simp [lowerExpr]))
  · intro hcon
    have h1 := congrArg List.head? hcon
    simp [tryErrArm, tryOkArm] at h1

/-- C4 (amended): lowering `EXPR?` produces a match on
`Try::into_result(EXPR)` tagged as the `?` desugaring with exactly two
arms — the `Err` arm first, performing the exit with
`Try::from_error(From::from(err))`, and the `Ok` arm second, binding the
success value and returning it — and both arm bodies carry the
unreachable-code-suppression attribute. -/
theorem C4_try_desugar_shape {reso : Nat → Option Nat} {sub : Expr} {s : LCtx}
    {hs : Hir} {s₁ : LCtx} (h1 : lowerExpr reso sub s = .ok (hs, s₁)) :
    lowerExpr reso (.tryE sub) s =
      .ok (.matchH (.callH (.pathH ["ops", "Try", "into_result"]) [hs])
        [tryErrArm s₁.catch_scopes, tryOkArm] .TryDesugar, s₁) ∧
    tryOkArm = ([.pok (.pid "val")], .identH "val" [.allowUnreachableCode]) ∧
    tryErrArm s₁.catch_scopes = ([.perr (.pid "err")],
      match s₁.catch_scopes.head? with
      | some catch_node =>
        .breakH ⟨none, .blockT catch_node⟩ (some tryFromErrExpr) [.allowUnreachableCode]
      | none => .retH (some tryFromErrExpr) [.allowUnreachableCode]) ∧
    tryFromErrExpr = .callH (.pathH ["ops", "Try", "from_error"])
      [.callH (.pathH ["convert", "From", "from"]) [.identH "err" []]] :=
  ⟨lowerExpr_tryE h1, rfl, rfl, rfl⟩

theorem C4_try_desugar_shape_witness :
    lowerExpr (fun _ => none) (.tryE (.lit 5)) ⟨[], [], true⟩ =
      .ok (.matchH (.callH (.pathH ["ops", "Try", "into_result"]) [.lit 5])
        [tryErrArm ([] : List Nat), tryOkArm] .TryDesugar, ⟨[], [], true⟩) :=
  (@C4_try_desugar_shape (fun _ => none) (.lit 5)
    ⟨[], [], true⟩ (.lit 5) ⟨[], [], true⟩
    (by simp [lowerExpr])).1

/-- C5: range lowering follows the fixed six-entry table keyed on
(has-start, has-end, inclusive-flag): a unit path expression exactly when
both bounds are absent, a struct literal with a `start` field from the
start bound and an `end` field from the end bound otherwise; and every
inclusive range with no end bound — with or without a start — is a fatal
error at lowering time, producing no tree. -/
theorem C5_range_table (reso : Nat → Option Nat) (s : LCtx) :
    (∀ e1, lowerExpr reso (.rangeE e1 none .Closed) s =
      .error (.fatal "inclusive range with no end")) ∧
    lowerExpr reso (.rangeE none none .HalfOpen) s =
      .ok (.pathH ["ops", "RangeFull"], s) ∧
    (∀ x hx s₁, lowerExpr reso x s = .ok (hx, s₁) →
      lowerExpr reso (.rangeE (some x) none .HalfOpen) s =
        .ok (.structH ["ops", "RangeFrom"] [("start", hx)], s₁)) ∧
    (∀ y hy s₁, lowerExpr reso y s = .ok (hy, s₁) →
      lowerExpr reso (.rangeE none (some y) .HalfOpen) s =
        .ok (.structH ["ops", "RangeTo"] [("end", hy)], s₁)) ∧
    (∀ y hy s₁, lowerExpr reso y s = .ok (hy, s₁) →
      lowerExpr reso (.rangeE none (some y) .Closed) s =
        .ok (.structH ["ops", "RangeToInclusive"] [("end", hy)], s₁)) ∧
    (∀ x hx s₁ y hy s₂, lowerExpr reso x s = .ok (hx, s₁) →
      lowerExpr reso y s₁ = .ok (hy, s₂) →
      lowerExpr reso (.rangeE (some x) (some y) .HalfOpen) s =
        .ok (.structH ["ops", "Range"] [("start", hx), ("end", hy)], s₂)) ∧
    (∀ x hx s₁ y hy s₂, lowerExpr reso x s = .ok (hx, s₁) →
      lowerExpr reso y s₁ = .ok (hy, s₂) →
      lowerExpr reso (.rangeE (some x) (some y) .Closed) s =
        .ok (.structH ["ops", "RangeInclusive"] [("start", hx), ("end", hy)], s₂)) := by
  refine ⟨?_, ?_, ?_, ?_, ?_, ?_, ?_⟩
  · intro e1
    cases e1 <;> simp [lowerExpr]
  · simp [lowerExpr]
  · intro x hx s₁ h1
    simp [lowerExpr, h1]
  · intro y hy s₁ h1
    simp [lowerExpr, h1]
  · intro y hy s₁ h1
    simp [lowerExpr, h1]
  · intro x hx s₁ y hy s₂ h1 h2
    simp [lowerExpr, h1, h2]
  · intro x hx s₁ y hy s₂ h1 h2
    simp [lowerExpr, h1, h2]

theorem C5_range_table_witness :
    lowerExpr (fun _ => none) (.rangeE (some (.lit 1)) none .Closed) ⟨[], [], false⟩ =
      .error (.fatal "inclusive range with no end") ∧
    lowerExpr (fun _ => none) (.rangeE none none .Closed) ⟨[], [], false⟩ =
      .error (.fatal "inclusive range with no end") ∧
    lowerExpr (fun _ => none)
        (.rangeE (some (.lit 1)) (some (.lit 2)) .Closed) ⟨[], [], false⟩ =
      .ok (.structH ["ops", "RangeInclusive"] [("start", .lit 1), ("end", .lit 2)],
        ⟨[], [], false⟩) := by
  have h := C5_range_table (fun _ => none) ⟨[], [], false⟩
  exact ⟨h.1 (some (.lit 1)), h.1 none,
    h.2.2.2.2.2.2 (.lit 1) (.lit 1) ⟨[], [], false⟩ (.lit 2) (.lit 2) ⟨[], [], false⟩
      (by simp [lowerExpr]) (by simp [lowerExpr])⟩

/-- C10: entering a loop target scope clears the in-loop-condition flag
for the nested lowering and restores the previous value on exit.  Hence
an unlabeled `break`/`continue` sitting directly in a `while` condition
lowers to the ambiguity-error destination, while the same `break` inside
a `loop` nested within the condition resolves to that inner loop's own
target id. -/
theorem C10_loop_condition_flag :
    (∀ (reso : Nat → Option Nat) (id : Nat) (body : Expr) (label : Option Nat)
        (s : LCtx) (h : Hir) (s' : LCtx),
      lowerExpr reso (.loopE id body label) s = .ok (h, s') →
      s'.is_in_loop_condition = s.is_in_loop_condition) ∧
    (∀ (reso : Nat → Option Nat) (wid bid : Nat) (lbl : Option Nat) (s : LCtx),
      lowerExpr reso (.whileE wid (.breakE bid none none) (.lit 0) lbl) s =
        .ok (.whileH
          (.breakH ⟨none, .loopT (.err .UnlabeledCfInWhileCondition)⟩ none [])
          (.blockH (.lit 0) false) lbl, s)) ∧
    (∀ (reso : Nat → Option Nat) (wid cid : Nat) (lbl : Option Nat) (s : LCtx),
      lowerExpr reso (.whileE wid (.continueE cid none) (.lit 0) lbl) s =
        .ok (.whileH
          (.againH ⟨none, .loopT (.err .UnlabeledCfInWhileCondition)⟩)
          (.blockH (.lit 0) false) lbl, s)) ∧
    (∀ (reso : Nat → Option Nat) (wid lid bid : Nat) (lbl : Option Nat) (s : LCtx),
      lowerExpr reso
          (.whileE wid (.loopE lid (.breakE bid none none) none) (.lit 0) lbl) s =
        .ok (.whileH
          (.loopH (.blockH (.breakH ⟨none, .loopT (.ok lid)⟩ none []) false) none)
          (.blockH (.lit 0) false) lbl, s)) := by
  refine ⟨?_, ?_, ?_, ?_⟩
  · intro reso id body label s h s' hrun
    rw [lowerExpr_state_eq reso (.loopE id body label) s h s' hrun]
  · intro reso wid bid lbl s
    simp [lowerExpr]
  · intro reso wid cid lbl s
    simp [lowerExpr]
  · intro reso wid lid bid lbl s
    simp [lowerExpr, lower_loop_destination]

theorem C10_loop_condition_flag_witness :
    (⟨[], [], true⟩ : LCtx).is_in_loop_condition =
      (⟨[], [], true⟩ : LCtx).is_in_loop_condition ∧
    lowerExpr (fun _ => none)
        (.whileE 1 (.loopE 2 (.breakE 3 none none) none) (.lit 0) none)
        ⟨[], [], true⟩ =
      .ok (.whileH
        (.loopH (.blockH (.breakH ⟨none, .loopT (.ok 2)⟩ none []) false) none)
        (.blockH (.lit 0) false) none, ⟨[], [], true⟩) := by
  constructor
  · exact C10_loop_condition_flag.1 (fun _ => none) 2 (.lit 0) none
      ⟨[], [], true⟩ (.loopH (.blockH (.lit 0) false) none) ⟨[], [], true⟩
      (by simp [lowerExpr])
  · exact C10_loop_condition_flag.2.2.2 (fun _ => none) 1 2 3 none ⟨[], [], true⟩

end Desugar

namespace InBand

/-- `hir::LifetimeName`. -/
inductive LifetimeName where
  | Underscore
  | Static
  | Name (n : String)
deriving DecidableEq, Repr

/-- `ast::Lifetime`: node id, span, name.  `lower_ident` is modelled as
the identity on names. -/
structure Lifetime where
  id : Nat
  span : Nat
  name : String
deriving DecidableEq, Repr

/-- `hir::Lifetime` (`lower_node_id` keeps the node-id component, so the
id passes through). -/
structure HLifetime where
  id : Nat
  span : Nat
  name : LifetimeName
deriving DecidableEq, Repr

/-- `ast::LifetimeDef`: an explicit region-parameter definition.  The
`may_dangle` flag stands for
`l.attrs.iter().any(|attr| attr.check_name("may_dangle"))`. -/
structure LifetimeDef where
  lifetime : Lifetime
  bounds : List Lifetime
  may_dangle : Bool
deriving DecidableEq, Repr

/-- `hir::LifetimeDef`. -/
structure HLifetimeDef where
  lifetime : HLifetime
  bounds : List HLifetime
  pure_wrt_drop : Bool
  in_band : Bool
deriving DecidableEq, Repr

/-- Only the lifetime list of `Generics` matters to the claims; type
parameters and where clauses are orthogonal to in-band collection. -/
structure Generics where
  lifetimes : List LifetimeDef
deriving DecidableEq, Repr

structure HGenerics where
  lifetimes : List HLifetimeDef
deriving DecidableEq, Repr

/-- The region-resolver fragment of `LoweringContext`:
`is_collecting_in_band_lifetimes`, `lifetimes_to_define` (span, name
pairs, `Vec` push = append at the end), `in_scope_lifetimes`, plus the
session's fresh node-id counter consumed by `next_id`. -/
structure RCtx where
  is_collecting_in_band_lifetimes : Bool
  lifetimes_to_define : List (Nat × String)
  in_scope_lifetimes : List String
  next_node_id : Nat
deriving DecidableEq, Repr

/-- `lower_lifetime`: elision and static markers pass through; any other
name is returned as a named region and, while collection is enabled and
the name is neither in scope nor already pending, enqueued as a pending
in-band lifetime. -/
def lower_lifetime (l : Lifetime) (s : RCtx) : HLifetime × RCtx :=
  if l.name = "'_" then (⟨l.id, l.span, .Underscore⟩, s)
  else if l.name = "'static" then (⟨l.id, l.span, .Static⟩, s)
  else
    let s :=
      if s.is_collecting_in_band_lifetimes ∧ l.name ∉ s.in_scope_lifetimes ∧
          s.lifetimes_to_define.find? (fun p => p.2 = l.name) = none then
        { s with lifetimes_to_define := s.lifetimes_to_define ++ [(l.span, l.name)] }
      else s
    (⟨l.id, l.span, .Name l.name⟩, s)

/-- `lower_lifetimes`. -/
def lower_lifetimes : List Lifetime → RCtx → List HLifetime × RCtx
  | [], s => ([], s)
  | l :: rest, s =>
    let (h, s₁) := lower_lifetime l s
    let (hs, s₂) := lower_lifetimes rest s₁
    (h :: hs, s₂)

/-- `lower_lifetime_def`: disable in-band collection while lowering the
definition's own name and bound list, restore the flag afterwards. -/
def lower_lifetime_def (l : LifetimeDef) (s : RCtx) : HLifetimeDef × RCtx :=
  let was_collecting_in_band := s.is_collecting_in_band_lifetimes
  let s₁ := { s with is_collecting_in_band_lifetimes := false }
  let (hl, s₂) := lower_lifetime l.lifetime s₁
  let (hbs, s₃) := lower_lifetimes l.bounds s₂
  (⟨hl, hbs, l.may_dangle, false⟩,
    { s₃ with is_collecting_in_band_lifetimes := was_collecting_in_band })

/-- `lower_lifetime_defs`. -/
def lower_lifetime_defs : List LifetimeDef → RCtx → List HLifetimeDef × RCtx
  | [], s => ([], s)
  | l :: rest, s =>
    let (h, s₁) := lower_lifetime_def l s
    let (hs, s₂) := lower_lifetime_defs rest s₁
    (h :: hs, s₂)

/-- The lifetime part of `lower_generics` (the `?Trait`-bound movement it
also performs concerns type parameters only). -/
def lower_generics (g : Generics) (s : RCtx) : HGenerics × RCtx :=
  let (ds, s₁) := lower_lifetime_defs g.lifetimes s
  (⟨ds⟩, s₁)

/-- Materialize one in-band `hir::LifetimeDef` per drained pending entry,
consuming one fresh node id each (`next_id`; the accompanying
`create_def_with_parent` call is a side effect on the external definition
registry). -/
def makeInBandDefs : List (Nat × String) → Nat → List HLifetimeDef × Nat
  | [], n => ([], n)
  | (span, name) :: rest, n =>
    let (ds, n') := makeInBandDefs rest (n + 1)
    (⟨⟨n, span, .Name name⟩, [], false, true⟩ :: ds, n')

/-- `collect_in_band_lifetime_defs`: forbid re-entrant collection
(`assert!`s, modelled as `none`), enable collection only if the feature
is active, run the body, drain the pending list, and materialize one
in-band definition per entry when a parent was supplied (entries are
discarded otherwise). -/
def collect_in_band_lifetime_defs {α : Type} (feature : Bool)
    (parent_id : Option Nat) (f : RCtx → α × RCtx) (s : RCtx) :
    Option ((List HLifetimeDef × α) × RCtx) :=
  if s.is_collecting_in_band_lifetimes then none
  else if s.lifetimes_to_define = [] then
    let s₁ := { s with is_collecting_in_band_lifetimes := feature }
    let (res, s₂) := f s₁
    let s₃ := { s₂ with is_collecting_in_band_lifetimes := false }
    let lifetimes_to_define := s₃.lifetimes_to_define
    match parent_id with
    | some _ =>
      let (lifetime_defs, n') := makeInBandDefs lifetimes_to_define s₃.next_node_id
      some ((lifetime_defs, res),
        { s₃ with lifetimes_to_define := [], next_node_id := n' })
    | none => some (([], res), { s₃ with lifetimes_to_define := [] })
  else none

/-- `add_in_band_lifetime_defs`: `with_in_scope_lifetime_defs` (push the
explicit names, truncate back) around `collect_in_band_lifetime_defs`
around `(lower_generics(generics), f(..))`, then append the in-band defs
after the lowered explicit lifetime parameters. -/
def add_in_band_lifetime_defs {α : Type} (feature : Bool) (generics : Generics)
    (parent_id : Option Nat) (f : RCtx → α × RCtx) (s : RCtx) :
    Option ((HGenerics × α) × RCtx) :=
  let old_len := s.in_scope_lifetimes.length
  let s₀ := { s with in_scope_lifetimes :=
    s.in_scope_lifetimes ++ generics.lifetimes.map (·.lifetime.name) }
  match collect_in_band_lifetime_defs feature parent_id
      (fun t =>
        let (lg, t₁) := lower_generics generics t
        let (res, t₂) := f t₁
        ((lg, res), t₂)) s₀ with
  | none => none
  | some ((in_band_defs, (lowered_generics, res)), s₂) =>
    some ((⟨lowered_generics.lifetimes ++ in_band_defs⟩, res),
      { s₂ with in_scope_lifetimes := s₂.in_scope_lifetimes.take old_len })

theorem lower_lifetime_not_collecting {l : Lifetime} {s : RCtx}
    (h : s.is_collecting_in_band_lifetimes = false) :
    (lower_lifetime l s).2 = s := by
  unfold lower_lifetime
  by_cases h1 : l.name = "'_"
  · rw [if_pos h1]
  · rw [if_neg h1]
    by_cases h2 : l.name = "'static"
    · rw [if_pos h2]
    · rw [if_neg h2]
      simp only
      rw [if_neg]
      simp [h]

theorem lower_lifetimes_not_collecting : ∀ (ls : List Lifetime) {s : RCtx},
    s.is_collecting_in_band_lifetimes = false → (lower_lifetimes ls s).2 = s
  | [], s, _ => rfl
  | l :: rest, s, h => by
    simp only [lower_lifetimes]
    rw [lower_lifetime_not_collecting h]
    exact lower_lifetimes_not_collecting rest h

/-- `lower_lifetime_def` restores the region-resolver state completely:
its name and bounds are lowered with collection disabled, so nothing is
enqueued, and the collection flag returns to its previous value. -/
theorem lower_lifetime_def_state (l : LifetimeDef) (s : RCtx) :
    (lower_lifetime_def l s).2 = s := by
  unfold lower_lifetime_def
  simp only
  rw [lower_lifetime_not_collecting rfl, lower_lifetimes_not_collecting l.bounds rfl]

theorem lower_lifetime_defs_state : ∀ (ls : List LifetimeDef) (s : RCtx),
    (lower_lifetime_defs ls s).2 = s
  | [], s => rfl
  | l :: rest, s => by
    simp only [lower_lifetime_defs]
    rw [lower_lifetime_def_state]
    exact lower_lifetime_defs_state rest s

/-- The pending list after lowering a list of region references with
collection on, as a pure fold. -/
def pendingFold : List Lifetime → List String → List (Nat × String) → List (Nat × String)
  | [], _, p => p
  | l :: rest, sc, p =>
    pendingFold rest sc
      (if l.name ≠ "'_" ∧ l.name ≠ "'static" ∧ l.name ∉ sc ∧
          p.find? (fun q => q.2 = l.name) = none
       then p ++ [(l.span, l.name)] else p)

theorem lower_lifetimes_pending : ∀ (refs : List Lifetime) (s : RCtx),
    s.is_collecting_in_band_lifetimes = true →
    (lower_lifetimes refs s).2 =
      { s with lifetimes_to_define :=
          pendingFold refs s.in_scope_lifetimes s.lifetimes_to_define }
  | [], s, _ => by simp [lower_lifetimes, pendingFold]
  | l :: rest, s, h => by
    simp only [lower_lifetimes, pendingFold]
    by_cases h1 : l.name = "'_"
    · rw [show lower_lifetime l s = (⟨l.id, l.span, .Underscore⟩, s) from by
        unfold lower_lifetime; rw [if_pos h1]]
      rw [lower_lifetimes_pending rest s h]
      congr 1
      rw [if_neg]
      simp [h1]
    · by_cases h2 : l.name = "'static"
      · rw [show lower_lifetime l s = (⟨l.id, l.span, .Static⟩, s) from by
          unfold lower_lifetime; rw [if_neg h1, if_pos h2]]
        rw [lower_lifetimes_pending rest s h]
        congr 1
        rw [if_neg]
        simp [h2]
      · by_cases h3 : l.name ∉ s.in_scope_lifetimes ∧
            s.lifetimes_to_define.find? (fun q => q.2 = l.name) = none
        · rw [show lower_lifetime l s = (⟨l.id, l.span, .Name l.name⟩,
              { s with lifetimes_to_define :=
                  s.lifetimes_to_define ++ [(l.span, l.name)] }) from by
            unfold lower_lifetime
            rw [if_neg h1, if_neg h2]
            simp only
            rw [if_pos ⟨by simp [h], h3.1, h3.2⟩]]
          rw [lower_lifetimes_pending rest _ (by simp [h])]
          simp only
          congr 1
          rw [if_pos ⟨h1, h2, h3.1, h3.2⟩]
        · rw [show lower_lifetime l s = (⟨l.id, l.span, .Name l.name⟩, s) from by
            unfold lower_lifetime
            rw [if_neg h1, if_neg h2]
            simp only
            rw [if_neg (by
              intro hcon
              exact h3 ⟨hcon.2.1, hcon.2.2⟩)]]
          rw [lower_lifetimes_pending rest s h]
          congr 1
          rw [if_neg (by
            intro hcon
            exact h3 ⟨hcon.2.2.1, hcon.2.2.2⟩)]

/-- The spec-side view of collection: the distinct undeclared names, in
first-use order (`newNames refs scope`). -/
def newNamesAux : List Lifetime → List String → List String → List String
  | [], _, acc => acc
  | l :: rest, sc, acc =>
    newNamesAux rest sc
      (if l.name ≠ "'_" ∧ l.name ≠ "'static" ∧ l.name ∉ sc ∧ l.name ∉ acc
       then acc ++ [l.name] else acc)

def newNames (refs : List Lifetime) (sc : List String) : List String :=
  newNamesAux refs sc []

theorem find?_eq_none_iff {p : List (Nat × String)} {name : String} :
    p.find? (fun q => q.2 = name) = none ↔ name ∉ p.map Prod.snd := by
  rw [List.find?_eq_none]
  constructor
  · intro h hmem
    obtain ⟨q, hq, hqn⟩ := List.mem_map.1 hmem
    have h2 := h q hq
    simp only [decide_eq_true_eq] at h2
    exact h2 hqn
  · intro h q hq
    simp only [decide_eq_true_eq]
    intro hcon
    exact h (List.mem_map.2 ⟨q, hq, hcon⟩)

theorem pendingFold_names : ∀ (refs : List Lifetime) (sc : List String)
    (p : List (Nat × String)),
    (pendingFold refs sc p).map Prod.snd = newNamesAux refs sc (p.map Prod.snd)
  | [], _, _ => rfl
  | l :: rest, sc, p => by
    simp only [pendingFold, newNamesAux]
    by_cases hc : l.name ≠ "'_" ∧ l.name ≠ "'static" ∧ l.name ∉ sc ∧
        p.find? (fun q => q.2 = l.name) = none
    · rw [if_pos hc, if_pos ⟨hc.1, hc.2.1, hc.2.2.1, find?_eq_none_iff.1 hc.2.2.2⟩]
      rw [pendingFold_names rest sc _]
      simp
    · rw [if_neg hc, if_neg (by
        intro hcon
        exact hc ⟨hcon.1, hcon.2.1, hcon.2.2.1, find?_eq_none_iff.2 hcon.2.2.2⟩)]
      exact pendingFold_names rest sc p

theorem newNamesAux_nodup : ∀ (refs : List Lifetime) (sc : List String)
    (acc : List String), acc.Nodup → (newNamesAux refs sc acc).Nodup
  | [], _, _, h => h
  | l :: rest, sc, acc, h => by
    simp only [newNamesAux]
    by_cases hc : l.name ≠ "'_" ∧ l.name ≠ "'static" ∧ l.name ∉ sc ∧ l.name ∉ acc
    · rw [if_pos hc]
      refine newNamesAux_nodup rest sc _ ?_
      simp [List.nodup_append, h, hc.2.2.2]
    · rw [if_neg hc]
      exact newNamesAux_nodup rest sc acc h

theorem makeInBandDefs_shape : ∀ (l : List (Nat × String)) (n : Nat),
    (makeInBandDefs l n).1.map (fun d => d.lifetime.name) =
      l.map (fun p => LifetimeName.Name p.2) ∧
    ∀ d ∈ (makeInBandDefs l n).1, d.in_band = true ∧ d.bounds = []
  | [], n => by simp [makeInBandDefs]
  | (span, name) :: rest, n => by
    simp only [makeInBandDefs]
    obtain ⟨h1, h2⟩ := makeInBandDefs_shape rest (n + 1)
    refine ⟨by simp [h1], ?_⟩
    intro d hd
    rcases (by simpa using hd :
        d = (⟨⟨n, span, .Name name⟩, [], false, true⟩ : HLifetimeDef) ∨
        d ∈ (makeInBandDefs rest (n + 1)).1) with rfl | hd'
    · exact ⟨rfl, rfl⟩
    · exact h2 d hd'

theorem lower_lifetime_defs_length : ∀ (ls : List LifetimeDef) (s : RCtx),
    (lower_lifetime_defs ls s).1.length = ls.length
  | [], _ => rfl
  | l :: rest, s => by
    simp only [lower_lifetime_defs]
    rcases lower_lifetime_def l s with ⟨h, s₁⟩
    simp only
    rcases hr : lower_lifetime_defs rest s₁ with ⟨hs, s₂⟩
    have := lower_lifetime_defs_length rest s₁
    rw [hr] at this
    simpa using this

/-- C9: while an explicit region-parameter definition (name and bound
list) is lowered, implicit-region collection is off and the previous flag
is restored afterwards; the resolver state — in particular the pending
implicit-region queue — is returned exactly as it was, so nothing inside
the definition is ever enqueued, even when collection is enabled for the
enclosing signature. -/
theorem C9_lifetime_def_no_enqueue (l : LifetimeDef) (s : RCtx) :
    (lower_lifetime_def l s).2 = s ∧
    (lower_lifetime_def l s).2.lifetimes_to_define = s.lifetimes_to_define ∧
    (lower_lifetime_def l s).2.is_collecting_in_band_lifetimes =
      s.is_collecting_in_band_lifetimes ∧
    (lower_lifetime_def l s).1.in_band = false ∧
    (lower_lifetime_def l s).1.lifetime =
      (lower_lifetime l.lifetime
        { s with is_collecting_in_band_lifetimes := false }).1 := by
  refine ⟨lower_lifetime_def_state l s,
    by rw [lower_lifetime_def_state],
    by rw [lower_lifetime_def_state], ?_, ?_⟩
  · unfold lower_lifetime_def
    rcases lower_lifetime l.lifetime
      { s with is_collecting_in_band_lifetimes := false } with ⟨hl, s₂⟩
    simp only
  · unfold lower_lifetime_def
    rcases hres : lower_lifetime l.lifetime
      { s with is_collecting_in_band_lifetimes := false } with ⟨hl, s₂⟩
    simp only
    rcases lower_lifetimes l.bounds s₂ with ⟨hbs, s₃⟩
    simp [hres]

/-- C6: with in-band collection enabled (feature on, parent supplied),
lowering a signature with explicit region parameters `E` and body region
references `refs` yields generics whose lifetime list starts with the
lowered explicit parameters and then carries exactly one new in-band
definition per distinct undeclared referenced name — repeated references
and names already in the visible bindings add nothing — in first-use
order. -/
theorem C6_in_band_defs {E : List LifetimeDef} {refs : List Lifetime}
    {p : Nat} {s : RCtx} {g : HGenerics} {res : List HLifetime} {s' : RCtx}
    (h1 : s.is_collecting_in_band_lifetimes = false)
    (h2 : s.lifetimes_to_define = [])
    (hrun : add_in_band_lifetime_defs true ⟨E⟩ (some p)
      (fun t => lower_lifetimes refs t) s = some ((g, res), s')) :
    g.lifetimes.take E.length =
      (lower_lifetime_defs E
        { s with
          in_scope_lifetimes := s.in_scope_lifetimes ++ E.map (·.lifetime.name)
          is_collecting_in_band_lifetimes := true }).1 ∧
    (g.lifetimes.drop E.length).map (fun d => d.lifetime.name) =
      (newNames refs (s.in_scope_lifetimes ++ E.map (·.lifetime.name))).map
        LifetimeName.Name ∧
    ((g.lifetimes.drop E.length).map (fun d => d.lifetime.name)).Nodup ∧
    (∀ d ∈ g.lifetimes.drop E.length, d.in_band = true ∧ d.bounds = []) := by
  have hstate : ({ s with
      in_scope_lifetimes := s.in_scope_lifetimes ++ E.map (·.lifetime.name)
      is_collecting_in_band_lifetimes := true } : RCtx) =
      ⟨true, [], s.in_scope_lifetimes ++ E.map (·.lifetime.name), s.next_node_id⟩ := by
    simp [h2]
  rcases hld : lower_lifetime_defs E
      ⟨true, [], s.in_scope_lifetimes ++ E.map (·.lifetime.name), s.next_node_id⟩
    with ⟨eds, sE⟩
  have hsE : sE =
      ⟨true, [], s.in_scope_lifetimes ++ E.map (·.lifetime.name), s.next_node_id⟩ := by
    have h5 := lower_lifetime_defs_state E
      ⟨true, [], s.in_scope_lifetimes ++ E.map (·.lifetime.name), s.next_node_id⟩
    rw [hld] at h5
    exact h5
  subst hsE
  rcases hlr : lower_lifetimes refs
      ⟨true, [], s.in_scope_lifetimes ++ E.map (·.lifetime.name), s.next_node_id⟩
    with ⟨hls, sR⟩
  have hsR : sR = ⟨true,
      pendingFold refs (s.in_scope_lifetimes ++ E.map (·.lifetime.name)) [],
      s.in_scope_lifetimes ++ E.map (·.lifetime.name), s.next_node_id⟩ := by
    have h6 := lower_lifetimes_pending refs
      ⟨true, [], s.in_scope_lifetimes ++ E.map (·.lifetime.name), s.next_node_id⟩ rfl
    rw [hlr] at h6
    simpa using h6
  subst hsR
  rcases hmk : makeInBandDefs
      (pendingFold refs (s.in_scope_lifetimes ++ E.map (·.lifetime.name)) [])
      s.next_node_id with ⟨defs, n'⟩
  unfold add_in_band_lifetime_defs collect_in_band_lifetime_defs lower_generics at hrun
  simp only [h1, h2] at hrun
  simp only [Bool.false_eq_true, if_false, if_true, List.map] at hrun
  simp [hld, hlr, hmk] at hrun
  obtain ⟨⟨hg, hres⟩, hs'⟩ := hrun
  have hlen : eds.length = E.length := by
    have h7 := lower_lifetime_defs_length E
      ⟨true, [], s.in_scope_lifetimes ++ E.map (·.lifetime.name), s.next_node_id⟩
    rw [hld] at h7
    simpa using h7
  have hglifts : g.lifetimes = eds ++ defs := by rw [← hg]
  have htake : g.lifetimes.take E.length = eds := by
    rw [hglifts, ← hlen]
    exact List.take_left eds defs
  have hdrop : g.lifetimes.drop E.length = defs := by
    rw [hglifts, ← hlen]
    exact List.drop_left eds defs
  obtain ⟨hnames, hflags⟩ := makeInBandDefs_shape
    (pendingFold refs (s.in_scope_lifetimes ++ E.map (·.lifetime.name)) [])
    s.next_node_id
  rw [hmk] at hnames hflags
  simp only at hnames hflags
  have h8 : (pendingFold refs (s.in_scope_lifetimes ++ E.map (·.lifetime.name)) []).map
      (fun q => LifetimeName.Name q.2) =
      (newNames refs (s.in_scope_lifetimes ++ E.map (·.lifetime.name))).map
        LifetimeName.Name := by
    have h9 := pendingFold_names refs (s.in_scope_lifetimes ++ E.map (·.lifetime.name)) []
    simp only [List.map_nil] at h9
    rw [newNames, ← h9, List.map_map]
    rfl
  refine ⟨by rw [htake, hstate, hld], ?_, ?_, ?_⟩
  · rw [hdrop, hnames, h8]
  · rw [hdrop, hnames, h8]
    refine List.Nodup.map ?_ (newNamesAux_nodup refs _ [] (by simp))
    intro a b hab
    simpa using hab
  · intro d hd
    rw [hdrop] at hd
    exact hflags d hd

theorem C6_in_band_defs_witness :
    (⟨false, [], ["'s"], 100⟩ : RCtx).is_collecting_in_band_lifetimes = false ∧
    (⟨false, [], ["'s"], 100⟩ : RCtx).lifetimes_to_define = [] ∧
    ((HGenerics.mk
        [⟨⟨1, 10, .Name "'a"⟩, [], false, false⟩,
         ⟨⟨100, 20, .Name "'x"⟩, [], false, true⟩]).lifetimes.drop 1).map
        (fun d => d.lifetime.name) =
      (newNames [⟨2, 20, "'x"⟩, ⟨3, 30, "'x"⟩, ⟨4, 40, "'a"⟩, ⟨5, 50, "'s"⟩]
        (["'s"] ++ [(⟨⟨1, 10, "'a"⟩, [], false⟩ : LifetimeDef)].map (·.lifetime.name))).map
        LifetimeName.Name := by
  refine ⟨rfl, rfl, ?_⟩
  have h := @C6_in_band_defs
    [⟨⟨1, 10, "'a"⟩, [], false⟩]
    [⟨2, 20, "'x"⟩, ⟨3, 30, "'x"⟩, ⟨4, 40, "'a"⟩, ⟨5, 50, "'s"⟩]
    7 ⟨false, [], ["'s"], 100⟩
    ⟨[⟨⟨1, 10, .Name "'a"⟩, [], false, false⟩,
      ⟨⟨100, 20, .Name "'x"⟩, [], false, true⟩]⟩
    [⟨2, 20, .Name "'x"⟩, ⟨3, 30, .Name "'x"⟩, ⟨4, 40, .Name "'a"⟩,
     ⟨5, 50, .Name "'s"⟩]
    ⟨false, [], ["'s"], 101⟩
    rfl rfl rfl
  exact h.2.1

end InBand

end Lowering
